import Mathlib

/-!
Verification of the fractive macro compilation pipeline (src/Compiler.ts).

The embedding models the compiler's AST rewriting pass over the commonmark
document tree: the macro scanner inside `RenderText` (lines 704-733), the
span splicing of `InsertHtmlIntoNode` (lines 320-366), the section splitter
(lines 737-767), the link rewriter `RenderLink` / `RewriteLinkNode`
(lines 611-684, 811-833), the image rewriter `RenderImage` (lines 535-602),
the per-file driver `RenderFile` (lines 443-526) and the batch loop in
`Compile` (lines 217-227).

Literal strings are modelled as `List Char`; the walker's
process-then-resume behaviour over spliced nodes is modelled as a
recursion over the trailing remainder of a leaf's literal.
-/

namespace Fractive

set_option maxRecDepth 100000

/-- Node kinds of the commonmark document tree that the compiler visits
(the tree itself is produced by the external commonmark parser). -/
inductive NType where
  | document
  | paragraph
  | block_quote
  | text
  | code
  | code_block
  | html_inline
  | softbreak
  | link
  | image
deriving DecidableEq

/-- A commonmark AST node: a kind, a literal (for leaf kinds), a
destination (for link/image kinds) and an ordered child list. -/
inductive Node where
  | mk (type : NType) (literal : List Char) (destination : List Char) (children : List Node)

/-- Literal of a node. -/
def Node.lit : Node → List Char
  | .mk _ l _ _ => l

/-- Error kinds of the compiler (spec section 7): UnterminatedMacro,
UnknownMacro, UnrecognizedMacro, InvalidSectionPlacement,
SectionAsImageSource, InvalidLinkMacro.  The three distinct
`LogParseError` messages of the section splitter (own paragraph /
inside another block element / no parent) are all placement errors. -/
inductive ErrKind where
  | unterminated
  | unknownKind
  | unrecognized
  | invalidSectionPlacement
  | sectionAsImageSource
  | invalidLinkTarget
deriving DecidableEq

/-- Mutable compiler state: `sectionCount` (Compiler.ts line 79, reset per
file at line 484) and `nextInlineID` (line 78, never reset). -/
structure CState where
  sectionCount : Nat
  nextInlineID : Nat
deriving DecidableEq

/-- Strip every backslash from a literal, modelling
`node.literal.split('\\').join('')` (Compiler.ts line 796). -/
def stripBackslashes (l : List Char) : List Char :=
  l.filter (fun c => c ≠ '\\')

/-- First-occurrence substring replacement, modelling JavaScript
`String.prototype.replace(pat, rep)` with a plain-string pattern
(used for `%7B`/`%7D` decoding at lines 558 and 629). -/
def replaceFirst (pat rep : List Char) : List Char → List Char
  | [] => []
  | c :: rest =>
    if pat.isPrefixOf (c :: rest) then rep ++ (c :: rest).drop pat.length
    else c :: replaceFirst pat rep rest

/-- Split on a separator character, modelling JavaScript
`String.prototype.split(":")` (Compiler.ts line 642):
the result is always non-empty and `splitOnChar sep [] = [[]]`. -/
def splitOnChar (sep : Char) : List Char → List (List Char)
  | [] => [[]]
  | c :: rest =>
    if c = sep then [] :: splitOnChar sep rest
    else
      match splitOnChar sep rest with
      | s :: ss => (c :: s) :: ss
      | [] => [[c]]

/-- Decimal rendering of a counter value, for `_inline-N` ids. -/
def natChars (n : Nat) : List Char :=
  (Nat.repr n).data

/-- One data attribute, modelling
`attrs += ` followed by `data-${attr}="${value}"` (lines 331 and 824). -/
def dataAttr (name value : List Char) : List Char :=
  " data-".data ++ name ++ "=\"".data ++ value ++ "\"".data

/-- Inserted inline-html literal of `InsertHtmlIntoNode` (lines 333-352):
the span wrapper depends on the kind of the leaf being spliced. -/
def insertHtmlLiteral (t : NType) (attrs : List Char) : List Char :=
  match t with
  | .code => "<code><span".data ++ attrs ++ "></span></code>".data
  | .code_block => "<pre><code><span".data ++ attrs ++ "></span></code></pre>".data
  | _ => "<span".data ++ attrs ++ "></span>".data

/-- Section-declaration replacement markup (Compiler.ts line 743): a
closing `</div>` plus newline when a section is already open (the
per-file `sectionCount` is positive), then the hidden section container. -/
def sectionDivMarkup (sectionCount : Nat) (id : List Char) : List Char :=
  (if sectionCount > 0 then "</div>\n".data else []) ++
    "<div id=\"".data ++ id ++ "\" class=\"section\" hidden=\"true\">".data

/-- Rewritten anchor literal of `RewriteLinkNode` (lines 826-827): no `id`
attribute is emitted when `id` is `none`. -/
def rewriteLinkNodeHtml (id : Option (List Char)) (attrs linkText : List Char) : List Char :=
  match id with
  | none => "<a href=\"#\"".data ++ attrs ++ ">".data ++ linkText ++ "</a>".data
  | some i =>
      "<a href=\"#\" id=\"".data ++ i ++ "\"".data ++ attrs ++ ">".data ++ linkText ++ "</a>".data

/-- Inner brace-depth loop of the scanner (Compiler.ts lines 713-728):
`d` is `braceCount`, the characters are those following the opening
brace.  Each brace adjusts the depth; the token body ends at the brace
that returns the depth to zero.  Note the loop inspects every character
directly: backslash escapes are NOT honoured here (only the outer loop
at lines 706-709 skips escaped characters). -/
def scanDepth : List Char → Nat → Option (List Char)
  | [], _ => none
  | c :: rest, d =>
    if c = '\x7b' then (scanDepth rest (d + 1)).map (fun m => c :: m)
    else if c = '\x7d' then
      if d = 1 then some [c]
      else (scanDepth rest (d - 1)).map (fun m => c :: m)
    else (scanDepth rest d).map (fun m => c :: m)

/-- Scan one whole token at a string whose head is `{`
(`macro = node.literal.substring(i, j + 1)`, line 724). -/
def scanToken : List Char → Option (List Char)
  | '\x7b' :: rest => (scanDepth rest 1).map (fun m => '\x7b' :: m)
  | _ => none

/-- Outer loop of `RenderText` (lines 704-710) up to the first unescaped
`{`: a backslash skips the following character; returns the consumed
prefix and the remainder starting at the `{`, or `none` when the literal
holds no unescaped `{`. -/
def findTokenStart : List Char → Option (List Char × List Char)
  | [] => none
  | '\\' :: c :: rest =>
      (findTokenStart rest).map (fun p => ('\\' :: c :: p.1, p.2))
  | '\x7b' :: rest => some ([], '\x7b' :: rest)
  | c :: rest =>
      (findTokenStart rest).map (fun p => (c :: p.1, p.2))

/-- De-delimited token: `macro.substring(1, macro.length - 1)` (line 773). -/
def tokenInner (m : List Char) : List Char :=
  (m.drop 1).dropLast

/-- Declared section id: `macro.substring(2, macro.length - 2)` (line 743). -/
def sectionName (m : List Char) : List Char :=
  ((m.drop 2).dropLast).dropLast

/-- Outcome of one `RenderText` visit to a text/code/code_block leaf. -/
inductive VisitOut where
  | noToken (newLit : List Char)
  | spliced (pre : List Char) (html : List Char) (post : List Char)
  | sectionDecl (markup : List Char)
  | failure (e : ErrKind)

/-- One visit of `RenderText` (lines 693-799) to a leaf of kind `t` whose
tree context is `parentT` (kind of `node.parent`) and `hasPrev`
(existence of `node.prev`):
 - no unescaped `{`: the loop falls through and backslashes are stripped
   (line 796);
 - unterminated token: failure (line 731);
 - `{{`: section declaration, which must have no preceding sibling and a
   paragraph parent (lines 737-767); the markup uses the current
   per-file section count;
 - `@`/`#`/`$` sigils: splice via `InsertHtmlIntoNode` (line 773); `pre`
   is the leaf content before the token (raw, not yet stripped), `post`
   the content after it;
 - any other second character: unrecognized (line 778). -/
def RenderText (t : NType) (parentT : Option NType) (hasPrev : Bool) (sc : Nat)
    (lit : List Char) : VisitOut :=
  match findTokenStart lit with
  | none => .noToken (stripBackslashes lit)
  | some (pre, ms) =>
    match scanToken ms with
    | none => .failure .unterminated
    | some m =>
      match m[1]? with
      | some '\x7b' =>
        match parentT with
        | none => .failure .invalidSectionPlacement
        | some pt =>
          if hasPrev then .failure .invalidSectionPlacement
          else if pt = .paragraph then .sectionDecl (sectionDivMarkup sc (sectionName m))
          else .failure .invalidSectionPlacement
      | some '@' =>
          .spliced pre (insertHtmlLiteral t (dataAttr "expand-macro".data (tokenInner m)))
            (ms.drop m.length)
      | some '#' =>
          .spliced pre (insertHtmlLiteral t (dataAttr "expand-macro".data (tokenInner m)))
            (ms.drop m.length)
      | some '$' =>
          .spliced pre (insertHtmlLiteral t (dataAttr "expand-macro".data (tokenInner m)))
            (ms.drop m.length)
      | _ => .failure .unrecognized

/-- Outcome of the walker's processing of one textual leaf together with
all the trailing leaves that splicing re-inserts after it. -/
inductive LitOut where
  | nodes (out : List Node)
  | sectionDecl (markup : List Char)
  | failure (e : ErrKind)

/-- Iterated `RenderText` visits over one leaf literal and its spliced
remainders, fuelled version.  One visit rewrites at most one token
(the `break` at line 783); `InsertHtmlIntoNode` truncates the leaf to
`pre` (unlinking it when `pre` is empty, line 356), inserts the
inline-html node and re-inserts `post` as a new leaf of the original
kind (lines 358-363), at which the walker resumes; that new leaf is then
visited in turn (with a preceding sibling present).  The fuel only
bounds the recursion over the strictly shrinking remainder; it is never
exhausted when it exceeds the literal length. -/
def renderLeafAux : Nat → NType → Option NType → Bool → Nat → List Char → LitOut
  | 0, _, _, _, _, _ => .nodes []
  | fuel + 1, t, parentT, hasPrev, sc, lit =>
    match RenderText t parentT hasPrev sc lit with
    | .noToken nl => .nodes [Node.mk t nl [] []]
    | .sectionDecl mk => .sectionDecl mk
    | .failure e => .failure e
    | .spliced pre html post =>
      if post = [] then
        .nodes ((if pre = [] then [] else [Node.mk t (stripBackslashes pre) [] []]) ++
          [Node.mk .html_inline html [] []])
      else
        match renderLeafAux fuel t parentT true sc post with
        | .nodes rest =>
            .nodes ((if pre = [] then [] else [Node.mk t (stripBackslashes pre) [] []]) ++
              Node.mk .html_inline html [] [] :: rest)
        | other => other

/-- Walker processing of a textual leaf (all visits). -/
def renderLeaf (t : NType) (parentT : Option NType) (hasPrev : Bool) (sc : Nat)
    (lit : List Char) : LitOut :=
  renderLeafAux (lit.length + 1) t parentT hasPrev sc lit

/-- Textual leaf kinds dispatched to `RenderText` (lines 496-501). -/
def isTextual : NType → Bool
  | .text => true
  | .code => true
  | .code_block => true
  | _ => false

/-- Serialization of a leaf node to html.  Modelled from the spec: the
markdown renderer is an external collaborator (`markdownWriter`,
commonmark `HtmlRenderer`); this literal-faithful model emits literals
for text and inline html and standard wrappers for code without entity
escaping.  Container kinds are handled one level up. -/
def serializeLeaf : Node → List Char
  | .mk t lit _ _ =>
    match t with
    | .text => lit
    | .html_inline => lit
    | .softbreak => "<br/>".data
    | .code => "<code>".data ++ lit ++ "</code>".data
    | .code_block => "<pre><code>".data ++ lit ++ "</code></pre>\n".data
    | _ => []

/-- Serialization of a list of leaves. -/
def serializeLeaves : List Node → List Char
  | [] => []
  | n :: ns => serializeLeaf n ++ serializeLeaves ns

/-- Serialization of an inline node (links and images render their
children/destination; commonmark links cannot nest). -/
def serializeInline : Node → List Char
  | .mk .link _ dest cs =>
      "<a href=\"".data ++ dest ++ "\">".data ++ serializeLeaves cs ++ "</a>".data
  | .mk .image _ dest _ =>
      "<img src=\"".data ++ dest ++ "\" />".data
  | n => serializeLeaf n

/-- Serialization of a list of inline nodes. -/
def serializeInlines : List Node → List Char
  | [] => []
  | n :: ns => serializeInline n ++ serializeInlines ns

/-- Serialization of a block-level node. -/
def serializeBlock : Node → List Char
  | .mk .paragraph _ _ cs => "<p>".data ++ serializeInlines cs ++ "</p>\n".data
  | n => serializeInline n

/-- Serialization of the block sequence of a document. -/
def serializeBlocks : List Node → List Char
  | [] => []
  | b :: bs => serializeBlock b ++ serializeBlocks bs

/-- Link text of `GetLinkText` (lines 270-290): the rendered html of the
link's children with the surrounding anchor tags stripped. -/
def getLinkText (children : List Node) : List Char :=
  serializeInlines children

/-- `RenderImage` (lines 535-602) on an image node: `alt` is the literal
of a removed leading text child; the whole image node (children
included) is replaced by an inline-html node, or the file fails.  A
non-token destination is still rewritten to echo `alt` into `title`. -/
def decodeDest (dest : List Char) : List Char :=
  replaceFirst "%7D".data "\x7d".data (replaceFirst "%7B".data "\x7b".data dest)

/-- Dispatch of `RenderImage` on the decoded destination `url`. -/
def RenderImageUrl (alt : List Char) (url : List Char) : Except ErrKind Node :=
  if url[0]? ≠ some '\x7b' then
    .ok (Node.mk .html_inline
      ("<img src=\"".data ++ url ++ "\" alt=\"".data ++ alt ++ "\" title=\"".data ++
        alt ++ "\">".data) [] [])
  else if url.getLast? ≠ some '\x7d' then .error .unterminated
  else
    match url[1]? with
    | some '@' => .error .sectionAsImageSource
    | some '#' =>
        .ok (Node.mk .html_inline
          ("<img data-image-source-macro=\"".data ++ tokenInner url ++
            "\" src=\"#\" alt=\"".data ++ alt ++ "\" title=\"".data ++ alt ++ "\">".data) [] [])
    | some '$' =>
        .ok (Node.mk .html_inline
          ("<img data-image-source-macro=\"".data ++ tokenInner url ++
            "\" src=\"#\" alt=\"".data ++ alt ++ "\" title=\"".data ++ alt ++ "\">".data) [] [])
    | _ => .error .unknownKind

/-- `RenderImage` (lines 535-602): decode the `%7B`/`%7D` escapes in the
destination (line 558) and dispatch. -/
def RenderImage (alt : List Char) (dest : List Char) : Except ErrKind Node :=
  RenderImageUrl alt (decodeDest dest)

/-- `RenderLink` on the exit event of a link node (lines 611-684): the
children (already rewritten) provide the link text; the destination is
dispatched on its modifier and then its leading sigil, and the whole
link subtree is replaced by the rewritten anchor (`RewriteLinkNode`).
Returns the updated state (the `:inline` branch consumes a fresh
process-lifetime id, line 651) and the replacement node. -/
def RenderLinkUrl (st : CState) (url : List Char) (dest : List Char)
    (children : List Node) : Except ErrKind (CState × Node) :=
  if url[0]? ≠ some '\x7b' then .ok (st, Node.mk .link [] dest children)
  else if url.getLast? ≠ some '\x7d' then .error .unterminated
  else
    match splitOnChar ':' (tokenInner url) with
    | [] => .error .unrecognized
    | tok0 :: toks =>
      if (match toks with
          | m :: _ => m
          | [] => []) = "inline".data then
        .ok (⟨st.sectionCount, st.nextInlineID + 1⟩,
          Node.mk .html_inline
            (rewriteLinkNodeHtml (some ("_inline-".data ++ natChars st.nextInlineID))
              (dataAttr "replace-with".data tok0) (getLinkText children)) [] [])
      else
        match tok0[0]? with
        | some '@' =>
            .ok (st, Node.mk .html_inline
              (rewriteLinkNodeHtml none (dataAttr "goto-section".data (tok0.drop 1))
                (getLinkText children)) [] [])
        | some '#' =>
            .ok (st, Node.mk .html_inline
              (rewriteLinkNodeHtml none (dataAttr "call-function".data (tok0.drop 1))
                (getLinkText children)) [] [])
        | some '$' => .error .invalidLinkTarget
        | _ => .error .unrecognized

/-- `RenderLink` dispatch: decode the destination (line 629), then rewrite
on the modifier and sigil. -/
def RenderLink (st : CState) (dest : List Char) (children : List Node) :
    Except ErrKind (CState × Node) :=
  RenderLinkUrl st (decodeDest dest) dest children

/-- Walker traversal over the children of a link node (the visible link
text, processed before the link's exit event).  Text/code leaves are
rewritten with the link as parent; images are rewritten on entry;
commonmark links cannot nest, so any other node passes through. -/
def renderLinkChildren (sc : Nat) (hasPrev : Bool) : List Node → Except ErrKind (List Node)
  | [] => .ok []
  | Node.mk t lit dest cs :: rest =>
    if isTextual t then
      match renderLeaf t (some .link) hasPrev sc lit with
      | .nodes out =>
        match renderLinkChildren sc true rest with
        | .ok out' => .ok (out ++ out')
        | .error e => .error e
      | .sectionDecl _ => .error .invalidSectionPlacement
      | .failure e => .error e
    else
      match t with
      | .image =>
        match RenderImage (match cs with
          | Node.mk .text l _ _ :: _ => l
          | _ => []) dest with
        | .ok n => match renderLinkChildren sc true rest with
          | .ok out' => .ok (n :: out')
          | .error e => .error e
        | .error e => .error e
      | _ =>
        match renderLinkChildren sc true rest with
        | .ok out' => .ok (Node.mk t lit dest cs :: out')
        | .error e => .error e

/-- Outcome of the traversal over the child sequence of a paragraph. -/
inductive InlOut where
  | ok (st : CState) (out : List Node)
  | sectionDecl (st : CState) (markup : List Char)
  | failure (st : CState) (e : ErrKind)

/-- Walker traversal over the inline children of a paragraph, dispatching
by node kind as in `RenderFile`'s switch (lines 486-509).  A section
declaration found in a child replaces the whole paragraph, so it is
signalled upward; it increments the per-file section count (line 760). -/
def renderInlines (st : CState) (hasPrev : Bool) : List Node → InlOut
  | [] => .ok st []
  | Node.mk t lit dest cs :: rest =>
    if isTextual t then
      match renderLeaf t (some .paragraph) hasPrev st.sectionCount lit with
      | .nodes out =>
        match renderInlines st true rest with
        | .ok st' out' => .ok st' (out ++ out')
        | other => other
      | .sectionDecl mk => .sectionDecl ⟨st.sectionCount + 1, st.nextInlineID⟩ mk
      | .failure e => .failure st e
    else
      match t with
      | .link =>
        match renderLinkChildren st.sectionCount false cs with
        | .ok cs' =>
          match RenderLink st dest cs' with
          | .ok (st', n) =>
            match renderInlines st' true rest with
            | .ok st'' out' => .ok st'' (n :: out')
            | other => other
          | .error e => .failure st e
        | .error e => .failure st e
      | .image =>
        match RenderImage (match cs with
          | Node.mk .text l _ _ :: _ => l
          | _ => []) dest with
        | .ok n =>
          match renderInlines st true rest with
          | .ok st' out' => .ok st' (n :: out')
          | other => other
        | .error e => .failure st e
      | _ =>
        match renderInlines st true rest with
        | .ok st' out' => .ok st' (Node.mk t lit dest cs :: out')
        | other => other

/-- Outcome of the traversal over the top-level blocks of a document. -/
inductive BlkOut where
  | ok (st : CState) (out : List Node)
  | failure (st : CState) (e : ErrKind)

/-- Walker traversal over the top-level blocks of a document.  A
paragraph whose inline traversal signals a section declaration is
replaced wholesale by the markup node (`node.parent.insertAfter`
followed by `node.parent.unlink()`, lines 752-753), discarding the rest
of its content.  Textual block leaves (code blocks) go through
`RenderText` with the document as parent. -/
def renderBlocks (st : CState) (hasPrev : Bool) : List Node → BlkOut
  | [] => .ok st []
  | Node.mk t lit dest cs :: rest =>
    if isTextual t then
      match renderLeaf t (some .document) hasPrev st.sectionCount lit with
      | .nodes out =>
        match renderBlocks st true rest with
        | .ok st' out' => .ok st' (out ++ out')
        | other => other
      | .sectionDecl _ => .failure st .invalidSectionPlacement
      | .failure e => .failure st e
    else
      match t with
      | .paragraph =>
        match renderInlines st false cs with
        | .ok st' cs' =>
          match renderBlocks st' true rest with
          | .ok st'' out => .ok st'' (Node.mk .paragraph [] [] cs' :: out)
          | other => other
        | .sectionDecl st' mk =>
          match renderBlocks st' true rest with
          | .ok st'' out => .ok st'' (Node.mk .html_inline mk [] [] :: out)
          | other => other
        | .failure st' e => .failure st' e
      | _ =>
        match renderBlocks st true rest with
        | .ok st' out => .ok st' (Node.mk t lit dest cs :: out)
        | other => other

/-- `RenderFile` (lines 443-526): reset the per-file section count
(line 484), run the rewriting traversal, append the closing `</div>`
for the final section as the last child of the root (lines 512-516) and
serialize via the external renderer.  Returns the (possibly advanced)
inline-id counter together with the rendered html or the error; an
error aborts only this file (`return null`). -/
def RenderFile (nextInlineID : Nat) (doc : Node) : Nat × Except ErrKind (List Char) :=
  match doc with
  | Node.mk .document _ _ bs =>
    match renderBlocks ⟨0, nextInlineID⟩ false bs with
    | .ok st out =>
        (st.nextInlineID,
         .ok (serializeBlocks (out ++ [Node.mk .html_inline "</div>".data [] []])))
    | .failure st e => (st.nextInlineID, .error e)
  | _ => (nextInlineID, .error .unrecognized)

/-- Result of the batch loop of `Compile` (lines 217-227). -/
structure BatchOut where
  nextInlineID : Nat
  errorCount : Nat
  results : List (Except ErrKind (List Char))

/-- Batch loop of `Compile` (lines 217-227): every markdown file is
rendered in order; a failed file increments `errorCount` and the loop
continues; the inline-id counter is shared across files. -/
def Compile (nextInlineID : Nat) : List Node → BatchOut
  | [] => ⟨nextInlineID, 0, []⟩
  | f :: fs =>
    ⟨(Compile (RenderFile nextInlineID f).1 fs).nextInlineID,
     (match (RenderFile nextInlineID f).2 with
      | .error _ => 1
      | .ok _ => 0) + (Compile (RenderFile nextInlineID f).1 fs).errorCount,
     (RenderFile nextInlineID f).2 :: (Compile (RenderFile nextInlineID f).1 fs).results⟩

/-- Whole-build success: `process.exit(1)` fires only after the loop,
when `errorCount > 0` (line 227). -/
def buildSucceeds (b : BatchOut) : Bool :=
  b.errorCount = 0

/-- Brace surplus of a scanned span: opening minus closing braces.  The
scanner's depth after consuming `p`, having started at depth `d`, is
`d + braceDelta p`. -/
def braceDelta (p : List Char) : Int :=
  (p.count '\x7b' : Int) - (p.count '\x7d' : Int)

/-- Example document: two section declarations, each the sole content of
its own top-level paragraph, with a paragraph of prose after each. -/
def exampleDocTwoSections : Node :=
  Node.mk .document [] []
    [Node.mk .paragraph [] [] [Node.mk .text "\x7b\x7bA\x7d\x7d".data [] []],
     Node.mk .paragraph [] [] [Node.mk .text "hello".data [] []],
     Node.mk .paragraph [] [] [Node.mk .text "\x7b\x7bB\x7d\x7d".data [] []],
     Node.mk .paragraph [] [] [Node.mk .text "world".data [] []]]

/-- Example document: a paragraph whose text leaf holds an unterminated
token `{@Foo`. -/
def exampleDocUnterminated : Node :=
  Node.mk .document [] []
    [Node.mk .paragraph [] [] [Node.mk .text "see \x7b@Foo".data [] []]]

/-- Example document: well formed, with a section declaration and a
section-navigation link. -/
def exampleDocWellFormed : Node :=
  Node.mk .document [] []
    [Node.mk .paragraph [] [] [Node.mk .text "\x7b\x7bStart\x7d\x7d".data [] []],
     Node.mk .paragraph [] []
       [Node.mk .link [] "\x7b@Foo\x7d".data [Node.mk .text "go".data [] []]]]

/-- Example document: a single `:inline` link whose visible text is `txt`. -/
def exampleDocInline (txt : String) : Node :=
  Node.mk .document [] []
    [Node.mk .paragraph [] []
      [Node.mk .link [] "\x7b#f:inline\x7d".data [Node.mk .text txt.data [] []]]]

theorem braceDelta_nil : braceDelta [] = 0 := by
  simp [braceDelta]

theorem braceDelta_cons (c : Char) (p : List Char) :
    braceDelta (c :: p) =
      braceDelta p + (if c = '\x7b' then 1 else 0) - (if c = '\x7d' then 1 else 0) := by
  simp only [braceDelta, List.count_cons, beq_iff_eq]
  split <;> split <;> push_cast <;> omega

theorem braceDelta_open (p : List Char) : braceDelta ('\x7b' :: p) = braceDelta p + 1 := by
  rw [braceDelta_cons, if_pos rfl, if_neg (by decide)]
  ring

theorem braceDelta_close (p : List Char) : braceDelta ('\x7d' :: p) = braceDelta p - 1 := by
  rw [braceDelta_cons, if_neg (by decide), if_pos rfl]
  ring

theorem braceDelta_other {c : Char} (hb : c ≠ '\x7b') (hc : c ≠ '\x7d') (p : List Char) :
    braceDelta (c :: p) = braceDelta p := by
  rw [braceDelta_cons, if_neg hb, if_neg hc]
  ring

theorem prefix_cons_cases {p m : List Char} {c : Char} (h : p <+: c :: m) :
    p = [] ∨ ∃ p', p = c :: p' ∧ p' <+: m := by
  cases p with
  | nil => exact Or.inl rfl
  | cons x p' =>
    obtain ⟨hx, hp'⟩ := List.cons_prefix_cons.mp h
    exact Or.inr ⟨p', by rw [hx], hp'⟩

theorem scanDepth_some_spec :
    ∀ (cs : List Char) (d : Nat) (m : List Char), 1 ≤ d → scanDepth cs d = some m →
      (∃ r, cs = m ++ r) ∧ m.getLast? = some '\x7d' ∧ (d : Int) + braceDelta m = 0 ∧
        ∀ p, p <+: m → p ≠ m → 0 < (d : Int) + braceDelta p := by
  intro cs
  induction cs with
  | nil =>
    intro d m hd h
    simp [scanDepth] at h
  | cons c rest ih =>
    intro d m hd h
    have hpre0 : (0 : Int) < (d : Int) + braceDelta [] := by
      rw [braceDelta_nil]
      omega
    by_cases hb : c = '\x7b'
    · subst hb
      rw [scanDepth, if_pos rfl] at h
      rcases Option.map_eq_some'.mp h with ⟨m', hm', hmm⟩
      obtain ⟨⟨r, hr⟩, hlast, hdelta, hpref⟩ := ih (d + 1) m' (by omega) hm'
      have hm'ne : m' ≠ [] := by
        intro hnil
        rw [hnil, braceDelta_nil] at hdelta
        omega
      subst hmm
      refine ⟨⟨r, by rw [hr, List.cons_append]⟩, ?_, ?_, ?_⟩
      · cases m' with
        | nil => exact absurd rfl hm'ne
        | cons a as => simpa using hlast
      · rw [braceDelta_open]
        omega
      · intro p hp hne
        rcases prefix_cons_cases hp with rfl | ⟨p', rfl, hp'⟩
        · exact hpre0
        · have hne' : p' ≠ m' := fun hEq => hne (by rw [hEq])
          have := hpref p' hp' hne'
          rw [braceDelta_open]
          omega
    · by_cases hc : c = '\x7d'
      · subst hc
        rw [scanDepth, if_neg (by decide), if_pos rfl] at h
        by_cases hd1 : d = 1
        · subst hd1
          rw [if_pos rfl] at h
          have hm : m = ['\x7d'] := (Option.some_inj.mp h).symm
          subst hm
          refine ⟨⟨rest, rfl⟩, rfl, ?_, ?_⟩
          · rw [braceDelta_close, braceDelta_nil]
            omega
          · intro p hp hne
            rcases prefix_cons_cases hp with rfl | ⟨p', rfl, hp'⟩
            · exact hpre0
            · rcases List.prefix_nil.mp hp' with rfl
              exact absurd rfl hne
        · rw [if_neg hd1] at h
          rcases Option.map_eq_some'.mp h with ⟨m', hm', hmm⟩
          obtain ⟨⟨r, hr⟩, hlast, hdelta, hpref⟩ := ih (d - 1) m' (by omega) hm'
          have hm'ne : m' ≠ [] := by
            intro hnil
            rw [hnil, braceDelta_nil] at hdelta
            omega
          have hcast : ((d - 1 : Nat) : Int) = (d : Int) - 1 := by omega
          rw [hcast] at hdelta hpref
          subst hmm
          refine ⟨⟨r, by rw [hr, List.cons_append]⟩, ?_, ?_, ?_⟩
          · cases m' with
            | nil => exact absurd rfl hm'ne
            | cons a as => simpa using hlast
          · rw [braceDelta_close]
            omega
          · intro p hp hne
            rcases prefix_cons_cases hp with rfl | ⟨p', rfl, hp'⟩
            · exact hpre0
            · have hne' : p' ≠ m' := fun hEq => hne (by rw [hEq])
              have := hpref p' hp' hne'
              rw [braceDelta_close]
              omega
      · rw [scanDepth, if_neg hb, if_neg hc] at h
        rcases Option.map_eq_some'.mp h with ⟨m', hm', hmm⟩
        obtain ⟨⟨r, hr⟩, hlast, hdelta, hpref⟩ := ih d m' hd hm'
        have hm'ne : m' ≠ [] := by
          intro hnil
          rw [hnil, braceDelta_nil] at hdelta
          omega
        subst hmm
        refine ⟨⟨r, by rw [hr, List.cons_append]⟩, ?_, ?_, ?_⟩
        · cases m' with
          | nil => exact absurd rfl hm'ne
          | cons a as => simpa using hlast
        · rw [braceDelta_other hb hc]
          omega
        · intro p hp hne
          rcases prefix_cons_cases hp with rfl | ⟨p', rfl, hp'⟩
          · exact hpre0
          · have hne' : p' ≠ m' := fun hEq => hne (by rw [hEq])
            have := hpref p' hp' hne'
            rw [braceDelta_other hb hc]
            omega

theorem scanDepth_none_spec :
    ∀ (cs : List Char) (d : Nat), 1 ≤ d → scanDepth cs d = none →
      ∀ p, p <+: cs → 0 < (d : Int) + braceDelta p := by
  intro cs
  induction cs with
  | nil =>
    intro d hd _ p hp
    rcases List.prefix_nil.mp hp with rfl
    rw [braceDelta_nil]
    omega
  | cons c rest ih =>
    intro d hd h p hp
    have hpre0 : (0 : Int) < (d : Int) + braceDelta [] := by
      rw [braceDelta_nil]
      omega
    by_cases hb : c = '\x7b'
    · subst hb
      rw [scanDepth, if_pos rfl, Option.map_eq_none'] at h
      rcases prefix_cons_cases hp with rfl | ⟨p', rfl, hp'⟩
      · exact hpre0
      · have := ih (d + 1) (by omega) h p' hp'
        rw [braceDelta_open]
        omega
    · by_cases hc : c = '\x7d'
      · subst hc
        rw [scanDepth, if_neg (by decide), if_pos rfl] at h
        by_cases hd1 : d = 1
        · rw [if_pos hd1] at h
          exact absurd h (by simp)
        · rw [if_neg hd1, Option.map_eq_none'] at h
          rcases prefix_cons_cases hp with rfl | ⟨p', rfl, hp'⟩
          · exact hpre0
          · have := ih (d - 1) (by omega) h p' hp'
            have hcast : ((d - 1 : Nat) : Int) = (d : Int) - 1 := by omega
            rw [hcast] at this
            rw [braceDelta_close]
            omega
      · rw [scanDepth, if_neg hb, if_neg hc, Option.map_eq_none'] at h
        rcases prefix_cons_cases hp with rfl | ⟨p', rfl, hp'⟩
        · exact hpre0
        · have := ih d hd h p' hp'
          rw [braceDelta_other hb hc]
          omega

theorem findTokenStart_cons_escape (c : Char) (rest : List Char) :
    findTokenStart ('\\' :: c :: rest) =
      (findTokenStart rest).map (fun p => ('\\' :: c :: p.1, p.2)) := rfl

theorem findTokenStart_cons_open (rest : List Char) :
    findTokenStart ('\x7b' :: rest) = some ([], '\x7b' :: rest) := rfl

theorem findTokenStart_cons_other {c : Char} (h1 : c ≠ '\\') (h2 : c ≠ '\x7b')
    (rest : List Char) :
    findTokenStart (c :: rest) = (findTokenStart rest).map (fun p => (c :: p.1, p.2)) := by
  rw [findTokenStart]
  · intro c' rest' hc _
    exact h1 hc
  · intro hc
    exact h2 hc

theorem findTokenStart_append :
    ∀ (l p s : List Char), findTokenStart l = some (p, s) →
      l = p ++ s ∧ ∃ r, s = '\x7b' :: r := by
  intro l
  induction l using findTokenStart.induct with
  | case1 =>
    intro p s h
    simp [findTokenStart] at h
  | case2 c rest ih =>
    intro p s h
    rw [findTokenStart_cons_escape] at h
    rcases Option.map_eq_some'.mp h with ⟨⟨p', s'⟩, hps, hmm⟩
    obtain ⟨h1, h2⟩ := ih p' s' hps
    cases hmm
    exact ⟨by rw [List.cons_append, List.cons_append, ← h1], h2⟩
  | case3 rest =>
    intro p s h
    rw [findTokenStart_cons_open] at h
    cases h
    exact ⟨rfl, rest, rfl⟩
  | case4 c rest hne1 hne2 ih =>
    intro p s h
    have h1 : c ≠ '\\' := by
      intro hc
      cases rest with
      | nil => rw [hc] at h; simp [findTokenStart] at h
      | cons c' rest' => exact hne1 c' rest' hc rfl
    have h2 : c ≠ '\x7b' := fun hc => hne2 hc
    rw [findTokenStart_cons_other h1 h2] at h
    rcases Option.map_eq_some'.mp h with ⟨⟨p', s'⟩, hps, hmm⟩
    obtain ⟨hl, hr⟩ := ih p' s' hps
    cases hmm
    exact ⟨by rw [List.cons_append, ← hl], hr⟩

theorem findTokenStart_clean :
    ∀ (a : List Char), '\x7b' ∉ a → '\\' ∉ a → ∀ (r : List Char),
      findTokenStart (a ++ '\x7b' :: r) = some (a, '\x7b' :: r) := by
  intro a
  induction a with
  | nil =>
    intro _ _ r
    rw [List.nil_append, findTokenStart_cons_open]
  | cons c a' ih =>
    intro hb hs r
    have h1 : c ≠ '\\' := fun hc => hs (by rw [hc]; exact List.mem_cons_self _ _)
    have h2 : c ≠ '\x7b' := fun hc => hb (by rw [hc]; exact List.mem_cons_self _ _)
    rw [List.cons_append, findTokenStart_cons_other h1 h2,
      ih (fun hm => hb (List.mem_cons_of_mem _ hm)) (fun hm => hs (List.mem_cons_of_mem _ hm)) r]
    rfl

theorem findTokenStart_none :
    ∀ (l : List Char), '\x7b' ∉ l → findTokenStart l = none := by
  intro l
  induction l using findTokenStart.induct with
  | case1 =>
    intro _
    rfl
  | case2 c rest ih =>
    intro hb
    rw [findTokenStart_cons_escape,
      ih (fun hm => hb (List.mem_cons_of_mem _ (List.mem_cons_of_mem _ hm)))]
    rfl
  | case3 rest =>
    intro hb
    exact absurd (List.mem_cons_self _ _) hb
  | case4 c rest hne1 hne2 ih =>
    intro hb
    by_cases h1 : c = '\\'
    · cases rest with
      | nil => rw [h1]; rfl
      | cons c' rest' => exact absurd rfl (hne1 c' rest' h1)
    · have h2 : c ≠ '\x7b' := fun hc => hne2 hc
      rw [findTokenStart_cons_other h1 h2,
        ih (fun hm => hb (List.mem_cons_of_mem _ hm))]
      rfl

theorem stripBackslashes_clean {l : List Char} (h : '\\' ∉ l) :
    stripBackslashes l = l := by
  rw [stripBackslashes, List.filter_eq_self]
  intro a ha
  simp only [ne_eq, decide_eq_true_eq]
  intro hEq
  rw [hEq] at ha
  exact h ha

theorem stripBackslashes_no_backslash (l : List Char) :
    '\\' ∉ stripBackslashes l := by
  intro hmem
  have := List.of_mem_filter hmem
  simp at this

theorem replaceFirst_not_mem :
    ∀ {c0 : Char} {pat : List Char}, pat.head? = some c0 → ∀ (rep l : List Char),
      c0 ∉ l → replaceFirst pat rep l = l := by
  intro c0 pat hhead rep l
  induction l with
  | nil =>
    intro _
    rfl
  | cons c rest ih =>
    intro hmem
    rw [replaceFirst]
    have hpf : pat.isPrefixOf (c :: rest) = false := by
      cases pat with
      | nil => simp at hhead
      | cons p0 ps =>
        have hp0 : p0 = c0 := by simpa using hhead
        have hne : c0 ≠ c := fun hEq => hmem (by rw [hEq]; exact List.mem_cons_self _ _)
        simp [List.isPrefixOf, hp0]
        intro hEq
        exact (hne hEq).elim
    rw [hpf]
    simp only [Bool.false_eq_true, if_false]
    rw [ih (fun hm => hmem (List.mem_cons_of_mem _ hm))]

theorem splitOnChar_no_sep :
    ∀ {sep : Char} (l : List Char), sep ∉ l → splitOnChar sep l = [l] := by
  intro sep l
  induction l with
  | nil =>
    intro _
    rfl
  | cons c rest ih =>
    intro hmem
    have hne : c ≠ sep := fun hEq => hmem (by rw [hEq]; exact List.mem_cons_self _ _)
    rw [splitOnChar, if_neg hne, ih (fun hm => hmem (List.mem_cons_of_mem _ hm))]

theorem splitOnChar_append :
    ∀ {sep : Char} (x y : List Char), sep ∉ x →
      splitOnChar sep (x ++ sep :: y) = x :: splitOnChar sep y := by
  intro sep x y
  induction x with
  | nil =>
    intro _
    rw [List.nil_append, splitOnChar, if_pos rfl]
  | cons c x' ih =>
    intro hmem
    have hne : c ≠ sep := fun hEq => hmem (by rw [hEq]; exact List.mem_cons_self _ _)
    rw [List.cons_append, splitOnChar, if_neg hne,
      ih (fun hm => hmem (List.mem_cons_of_mem _ hm))]

theorem scanDepth_clean :
    ∀ (id : List Char), '\x7b' ∉ id → '\x7d' ∉ id → ∀ (r : List Char),
      scanDepth (id ++ '\x7d' :: r) 1 = some (id ++ ['\x7d']) := by
  intro id
  induction id with
  | nil =>
    intro _ _ r
    rw [List.nil_append, scanDepth, if_neg (by decide), if_pos rfl, if_pos rfl]
    rfl
  | cons c id' ih =>
    intro hb hc r
    have h1 : c ≠ '\x7b' := fun hEq => hb (by rw [hEq]; exact List.mem_cons_self _ _)
    have h2 : c ≠ '\x7d' := fun hEq => hc (by rw [hEq]; exact List.mem_cons_self _ _)
    rw [List.cons_append, scanDepth, if_neg h1, if_neg h2,
      ih (fun hm => hb (List.mem_cons_of_mem _ hm)) (fun hm => hc (List.mem_cons_of_mem _ hm)) r]
    rfl

theorem scanDepth_clean2 :
    ∀ (id : List Char), '\x7b' ∉ id → '\x7d' ∉ id → ∀ (r : List Char),
      scanDepth (id ++ '\x7d' :: '\x7d' :: r) 2 = some (id ++ ['\x7d', '\x7d']) := by
  intro id
  induction id with
  | nil =>
    intro _ _ r
    rw [List.nil_append, scanDepth, if_neg (by decide), if_pos rfl, if_neg (by decide)]
    have : (2 : Nat) - 1 = 1 := rfl
    rw [this, scanDepth, if_neg (by decide), if_pos rfl, if_pos rfl]
    rfl
  | cons c id' ih =>
    intro hb hc r
    have h1 : c ≠ '\x7b' := fun hEq => hb (by rw [hEq]; exact List.mem_cons_self _ _)
    have h2 : c ≠ '\x7d' := fun hEq => hc (by rw [hEq]; exact List.mem_cons_self _ _)
    rw [List.cons_append, scanDepth, if_neg h1, if_neg h2,
      ih (fun hm => hb (List.mem_cons_of_mem _ hm)) (fun hm => hc (List.mem_cons_of_mem _ hm)) r]
    rfl

theorem scanToken_parts {ms m : List Char} (h : scanToken ms = some m) :
    ∃ body rest, ms = '\x7b' :: rest ∧ m = '\x7b' :: body ∧ scanDepth rest 1 = some body := by
  unfold scanToken at h
  split at h
  next rest =>
    rcases Option.map_eq_some'.mp h with ⟨body, hbody, hmm⟩
    exact ⟨body, rest, rfl, hmm.symm, hbody⟩
  next hne =>
    exact absurd h (by simp)

theorem scanToken_length_le {ms m : List Char} (h : scanToken ms = some m) :
    2 ≤ m.length ∧ m.length ≤ ms.length := by
  obtain ⟨body, rest, hms, hm, hscan⟩ := scanToken_parts h
  obtain ⟨⟨r, hr⟩, hlast, _, _⟩ := scanDepth_some_spec rest 1 body (by omega) hscan
  have hbody_ne : body ≠ [] := by
    intro hnil
    rw [hnil] at hlast
    simp at hlast
  have h1 : 1 ≤ body.length := List.length_pos.mpr hbody_ne
  have h2 : body.length ≤ rest.length := by
    rw [hr, List.length_append]
    omega
  rw [hms, hm]
  simp only [List.length_cons]
  omega

theorem RenderText_spliced_parts {t : NType} {pt : Option NType} {hp : Bool} {sc : Nat}
    {lit pre html post : List Char}
    (h : RenderText t pt hp sc lit = .spliced pre html post) :
    ∃ ms m, findTokenStart lit = some (pre, ms) ∧ scanToken ms = some m ∧
      post = ms.drop m.length := by
  unfold RenderText at h
  split at h
  · exact absurd h (by simp)
  next p0 ms0 hfind =>
    split at h
    · exact absurd h (by simp)
    next m hscan =>
      split at h
      · split at h
        · exact absurd h (by simp)
        · split at h
          · exact absurd h (by simp)
          · split at h
            · exact absurd h (by simp)
            · exact absurd h (by simp)
      · rw [VisitOut.spliced.injEq] at h
        obtain ⟨h1, _, h3⟩ := h
        exact ⟨ms0, m, by rw [hfind, h1], hscan, h3.symm⟩
      · rw [VisitOut.spliced.injEq] at h
        obtain ⟨h1, _, h3⟩ := h
        exact ⟨ms0, m, by rw [hfind, h1], hscan, h3.symm⟩
      · rw [VisitOut.spliced.injEq] at h
        obtain ⟨h1, _, h3⟩ := h
        exact ⟨ms0, m, by rw [hfind, h1], hscan, h3.symm⟩
      · exact absurd h (by simp)

theorem RenderText_spliced_length {t : NType} {pt : Option NType} {hp : Bool} {sc : Nat}
    {lit pre html post : List Char}
    (h : RenderText t pt hp sc lit = .spliced pre html post) :
    pre.length + post.length + 2 ≤ lit.length := by
  obtain ⟨ms, m, hfind, hscan, hpost⟩ := RenderText_spliced_parts h
  obtain ⟨hlit, _⟩ := findTokenStart_append lit pre ms hfind
  obtain ⟨hm2, hmle⟩ := scanToken_length_le hscan
  have h1 : post.length = ms.length - m.length := by
    rw [hpost, List.length_drop]
  have h2 : lit.length = pre.length + ms.length := by
    rw [hlit, List.length_append]
  omega

theorem renderLeafAux_congr :
    ∀ (n : Nat) (t : NType) (pt : Option NType) (sc : Nat) (lit : List Char) (hp : Bool)
      (f₁ f₂ : Nat), lit.length ≤ n → lit.length < f₁ → lit.length < f₂ →
      renderLeafAux f₁ t pt hp sc lit = renderLeafAux f₂ t pt hp sc lit := by
  intro n
  induction n with
  | zero =>
    intro t pt sc lit hp f₁ f₂ hn h1 h2
    have hnil : lit = [] := List.length_eq_zero.mp (by omega)
    subst hnil
    obtain ⟨g₁, rfl⟩ : ∃ g, f₁ = g + 1 := ⟨f₁ - 1, by omega⟩
    obtain ⟨g₂, rfl⟩ : ∃ g, f₂ = g + 1 := ⟨f₂ - 1, by omega⟩
    rfl
  | succ n ih =>
    intro t pt sc lit hp f₁ f₂ hn h1 h2
    obtain ⟨g₁, rfl⟩ : ∃ g, f₁ = g + 1 := ⟨f₁ - 1, by omega⟩
    obtain ⟨g₂, rfl⟩ : ∃ g, f₂ = g + 1 := ⟨f₂ - 1, by omega⟩
    show renderLeafAux (g₁ + 1) t pt hp sc lit = renderLeafAux (g₂ + 1) t pt hp sc lit
    rw [renderLeafAux, renderLeafAux]
    cases hv : RenderText t pt hp sc lit with
    | noToken nl => rfl
    | sectionDecl mk => rfl
    | failure e => rfl
    | spliced pre html post =>
      have hlen := RenderText_spliced_length hv
      by_cases hpost : post = []
      · subst hpost
        rfl
      · have hrec : renderLeafAux g₁ t pt true sc post = renderLeafAux g₂ t pt true sc post := by
          have hple : post.length ≤ n := by omega
          exact ih t pt sc post true g₁ g₂ hple (by omega) (by omega)
        dsimp only
        rw [if_neg hpost, if_neg hpost, hrec]

theorem renderLeaf_eq (t : NType) (pt : Option NType) (hp : Bool) (sc : Nat)
    (lit : List Char) :
    renderLeaf t pt hp sc lit =
      match RenderText t pt hp sc lit with
      | .noToken nl => .nodes [Node.mk t nl [] []]
      | .sectionDecl mk => .sectionDecl mk
      | .failure e => .failure e
      | .spliced pre html post =>
        if post = [] then
          .nodes ((if pre = [] then [] else [Node.mk t (stripBackslashes pre) [] []]) ++
            [Node.mk .html_inline html [] []])
        else
          match renderLeaf t pt true sc post with
          | .nodes rest =>
              .nodes ((if pre = [] then [] else [Node.mk t (stripBackslashes pre) [] []]) ++
                Node.mk .html_inline html [] [] :: rest)
          | other => other := by
  unfold renderLeaf
  rw [renderLeafAux]
  cases hv : RenderText t pt hp sc lit with
  | noToken nl => rfl
  | sectionDecl mk => rfl
  | failure e => rfl
  | spliced pre html post =>
    have hlen := RenderText_spliced_length hv
    by_cases hpost : post = []
    · subst hpost
      rfl
    · have hrec : renderLeafAux lit.length t pt true sc post =
          renderLeafAux (post.length + 1) t pt true sc post :=
        renderLeafAux_congr lit.length t pt sc post true lit.length (post.length + 1)
          (by omega) (by omega) (by omega)
      dsimp only
      rw [if_neg hpost, if_neg hpost, hrec]

theorem scanToken_cons_open (rest : List Char) :
    scanToken ('\x7b' :: rest) = (scanDepth rest 1).map (fun m => '\x7b' :: m) := rfl

theorem scanDepth_cons_open (rest : List Char) (d : Nat) :
    scanDepth ('\x7b' :: rest) d = (scanDepth rest (d + 1)).map (fun m => '\x7b' :: m) := rfl

theorem scanToken_sigil {sig : Char} (hs1 : sig ≠ '\x7b') (hs2 : sig ≠ '\x7d')
    {ident : List Char} (hi1 : '\x7b' ∉ ident) (hi2 : '\x7d' ∉ ident) (b : List Char) :
    scanToken ('\x7b' :: sig :: ident ++ '\x7d' :: b) =
      some ('\x7b' :: sig :: ident ++ ['\x7d']) := by
  have hmem1 : '\x7b' ∉ sig :: ident := by
    intro hm
    rcases List.mem_cons.mp hm with hEq | hm'
    · exact hs1 hEq.symm
    · exact hi1 hm'
  have hmem2 : '\x7d' ∉ sig :: ident := by
    intro hm
    rcases List.mem_cons.mp hm with hEq | hm'
    · exact hs2 hEq.symm
    · exact hi2 hm'
  have h := scanDepth_clean (sig :: ident) hmem1 hmem2 b
  simp only [List.cons_append] at h ⊢
  rw [scanToken_cons_open, h]
  rfl

theorem scanToken_section {id : List Char} (hi1 : '\x7b' ∉ id) (hi2 : '\x7d' ∉ id)
    (b : List Char) :
    scanToken ('\x7b' :: '\x7b' :: id ++ '\x7d' :: '\x7d' :: b) =
      some ('\x7b' :: '\x7b' :: id ++ ['\x7d', '\x7d']) := by
  have h := scanDepth_clean2 id hi1 hi2 b
  simp only [List.cons_append] at h ⊢
  rw [scanToken_cons_open, scanDepth_cons_open, h]
  rfl

theorem tokenInner_concat (x : List Char) :
    tokenInner ('\x7b' :: x ++ ['\x7d']) = x := by
  rw [tokenInner]
  have h1 : ('\x7b' :: x ++ ['\x7d']).drop 1 = x ++ ['\x7d'] := rfl
  rw [h1, List.dropLast_concat]

theorem sectionName_concat (id : List Char) :
    sectionName ('\x7b' :: '\x7b' :: id ++ ['\x7d', '\x7d']) = id := by
  rw [sectionName]
  have h1 : ('\x7b' :: '\x7b' :: id ++ ['\x7d', '\x7d']).drop 2 = id ++ ['\x7d', '\x7d'] := rfl
  have h2 : id ++ ['\x7d', '\x7d'] = (id ++ ['\x7d']) ++ ['\x7d'] := by
    rw [List.append_assoc]
    rfl
  rw [h1, h2, List.dropLast_concat, List.dropLast_concat]

theorem RenderText_of_none {t : NType} {pt : Option NType} {hp : Bool} {sc : Nat}
    {lit : List Char} (h : findTokenStart lit = none) :
    RenderText t pt hp sc lit = .noToken (stripBackslashes lit) := by
  unfold RenderText
  rw [h]

theorem renderLeaf_of_none {t : NType} {pt : Option NType} {hp : Bool} {sc : Nat}
    {lit : List Char} (h : findTokenStart lit = none) :
    renderLeaf t pt hp sc lit = .nodes [Node.mk t (stripBackslashes lit) [] []] := by
  rw [renderLeaf_eq, RenderText_of_none h]

theorem tokenInner_norm (c : Char) (x : List Char) :
    tokenInner (c :: (x ++ ['\x7d'])) = x := by
  rw [tokenInner]
  have h1 : (c :: (x ++ ['\x7d'])).drop 1 = x ++ ['\x7d'] := rfl
  rw [h1, List.dropLast_concat]

theorem RenderText_unterminated {t : NType} {pt : Option NType} {hp : Bool} {sc : Nat}
    {lit p ms : List Char} (hfind : findTokenStart lit = some (p, ms))
    (hscan : scanToken ms = none) :
    RenderText t pt hp sc lit = .failure .unterminated := by
  unfold RenderText
  rw [hfind]
  dsimp only
  rw [hscan]

theorem RenderText_sigil {t : NType} {pt : Option NType} {hp : Bool} {sc : Nat}
    {a ident b : List Char} {sig : Char}
    (ha1 : '\x7b' ∉ a) (ha2 : '\\' ∉ a)
    (hsig : sig = '@' ∨ sig = '#' ∨ sig = '$')
    (hi1 : '\x7b' ∉ ident) (hi2 : '\x7d' ∉ ident) :
    RenderText t pt hp sc (a ++ '\x7b' :: sig :: (ident ++ '\x7d' :: b)) =
      .spliced a (insertHtmlLiteral t (dataAttr "expand-macro".data (sig :: ident))) b := by
  have hfind := findTokenStart_clean a ha1 ha2 (sig :: (ident ++ '\x7d' :: b))
  have hinner := tokenInner_norm '\x7b' (sig :: ident)
  simp only [List.cons_append] at hinner
  have hsne1 : sig ≠ '\x7b' := by
    rcases hsig with rfl | rfl | rfl <;> decide
  have hsne2 : sig ≠ '\x7d' := by
    rcases hsig with rfl | rfl | rfl <;> decide
  have hscan := scanToken_sigil hsne1 hsne2 hi1 hi2 b
  simp only [List.cons_append] at hscan
  have hdrop : (('\x7b' :: sig :: (ident ++ '\x7d' :: b)).drop
      ('\x7b' :: sig :: (ident ++ ['\x7d'])).length) = b := by
    have hsplit : '\x7b' :: sig :: (ident ++ '\x7d' :: b) =
        ('\x7b' :: sig :: (ident ++ ['\x7d'])) ++ b := by
      simp [List.cons_append, List.append_assoc]
    rw [hsplit, List.drop_left]
  rcases hsig with rfl | rfl | rfl
  · have hm1 : ('\x7b' :: '@' :: (ident ++ ['\x7d']))[1]? = some '@' := by simp
    unfold RenderText
    rw [hfind]
    dsimp only
    rw [hscan]
    dsimp only
    rw [hinner, hdrop, hm1]
    rfl
  · have hm1 : ('\x7b' :: '#' :: (ident ++ ['\x7d']))[1]? = some '#' := by simp
    unfold RenderText
    rw [hfind]
    dsimp only
    rw [hscan]
    dsimp only
    rw [hinner, hdrop, hm1]
    rfl
  · have hm1 : ('\x7b' :: '$' :: (ident ++ ['\x7d']))[1]? = some '$' := by simp
    unfold RenderText
    rw [hfind]
    dsimp only
    rw [hscan]
    dsimp only
    rw [hinner, hdrop, hm1]
    rfl

theorem RenderText_section {t : NType} {pt : Option NType} {hp : Bool} {sc : Nat}
    {a id b : List Char}
    (ha1 : '\x7b' ∉ a) (ha2 : '\\' ∉ a) (hi1 : '\x7b' ∉ id) (hi2 : '\x7d' ∉ id) :
    RenderText t pt hp sc (a ++ '\x7b' :: '\x7b' :: (id ++ '\x7d' :: '\x7d' :: b)) =
      match pt with
      | none => .failure .invalidSectionPlacement
      | some q =>
        if hp then .failure .invalidSectionPlacement
        else if q = .paragraph then .sectionDecl (sectionDivMarkup sc id)
        else .failure .invalidSectionPlacement := by
  have hfind := findTokenStart_clean a ha1 ha2 ('\x7b' :: (id ++ '\x7d' :: '\x7d' :: b))
  have hscan := scanToken_section hi1 hi2 b
  simp only [List.cons_append] at hscan
  have hname := sectionName_concat id
  simp only [List.cons_append] at hname
  have hm1 : ('\x7b' :: '\x7b' :: (id ++ ['\x7d', '\x7d']))[1]? = some '\x7b' := by simp
  unfold RenderText
  rw [hfind]
  dsimp only
  rw [hscan]
  dsimp only
  rw [hm1]
  simp only [hname]

theorem decodeDest_clean {dest : List Char} (h : '%' ∉ dest) :
    decodeDest dest = dest := by
  unfold decodeDest
  rw [replaceFirst_not_mem (show ("%7B".data).head? = some '%' from rfl) _ dest h,
    replaceFirst_not_mem (show ("%7D".data).head? = some '%' from rfl) _ dest h]

theorem percent_not_mem_token {tok : List Char} (h : '%' ∉ tok) :
    '%' ∉ ('\x7b' :: tok) ++ ['\x7d'] := by
  intro hm
  rcases List.mem_append.mp hm with hm1 | hm2
  · rcases List.mem_cons.mp hm1 with hEq | hm1'
    · exact absurd hEq (by decide)
    · exact h hm1'
  · revert hm2
    decide

theorem RenderLinkUrl_token {st : CState} {ch : List Node} {dest : List Char}
    (tok : List Char) :
    RenderLinkUrl st (('\x7b' :: tok) ++ ['\x7d']) dest ch =
      (match splitOnChar ':' tok with
       | [] => .error .unrecognized
       | tok0 :: toks =>
         if (match toks with
             | m :: _ => m
             | [] => []) = "inline".data then
           .ok (⟨st.sectionCount, st.nextInlineID + 1⟩,
             Node.mk .html_inline
               (rewriteLinkNodeHtml (some ("_inline-".data ++ natChars st.nextInlineID))
                 (dataAttr "replace-with".data tok0) (getLinkText ch)) [] [])
         else
           match tok0[0]? with
           | some '@' =>
               .ok (st, Node.mk .html_inline
                 (rewriteLinkNodeHtml none (dataAttr "goto-section".data (tok0.drop 1))
                   (getLinkText ch)) [] [])
           | some '#' =>
               .ok (st, Node.mk .html_inline
                 (rewriteLinkNodeHtml none (dataAttr "call-function".data (tok0.drop 1))
                   (getLinkText ch)) [] [])
           | some '$' => .error .invalidLinkTarget
           | _ => .error .unrecognized) := by
  have h0 : ((('\x7b' :: tok) ++ ['\x7d']))[0]? = some '\x7b' := by
    rw [List.cons_append]
    simp
  have hlast : (('\x7b' :: tok) ++ ['\x7d']).getLast? = some '\x7d' := List.getLast?_concat _
  have hti : tokenInner (('\x7b' :: tok) ++ ['\x7d']) = tok := by
    rw [List.cons_append]
    exact tokenInner_norm '\x7b' tok
  unfold RenderLinkUrl
  rw [h0, hlast, hti]
  rw [if_neg (by simp), if_neg (by simp)]

theorem RenderLink_nonmacro {st : CState} {ch : List Node} {dest : List Char}
    (h1 : '%' ∉ dest) (h2 : dest[0]? ≠ some '\x7b') :
    RenderLink st dest ch = .ok (st, Node.mk .link [] dest ch) := by
  unfold RenderLink RenderLinkUrl
  rw [decodeDest_clean h1, if_pos h2]

theorem RenderLink_unterminated {st : CState} {ch : List Node} {rest : List Char}
    (h1 : '%' ∉ '\x7b' :: rest) (h2 : ('\x7b' :: rest).getLast? ≠ some '\x7d') :
    RenderLink st ('\x7b' :: rest) ch = .error .unterminated := by
  unfold RenderLink RenderLinkUrl
  rw [decodeDest_clean h1]
  rw [if_neg (by simp), if_pos h2]

theorem RenderLink_inline {st : CState} {ch : List Node} {X : List Char}
    (h1 : ':' ∉ X) (h2 : '%' ∉ X) :
    RenderLink st (('\x7b' :: (X ++ ":inline".data)) ++ ['\x7d']) ch =
      .ok (⟨st.sectionCount, st.nextInlineID + 1⟩,
        Node.mk .html_inline
          ("<a href=\"#\" id=\"_inline-".data ++ (natChars st.nextInlineID ++
            ("\" data-replace-with=\"".data ++ (X ++ ("\">".data ++
              (getLinkText ch ++ "</a>".data)))))) [] []) := by
  have hpm : '%' ∉ X ++ ":inline".data := by
    intro hm
    rcases List.mem_append.mp hm with hx | hs
    · exact h2 hx
    · revert hs
      decide
  unfold RenderLink
  rw [decodeDest_clean (percent_not_mem_token hpm), RenderLinkUrl_token]
  have hX : X ++ ":inline".data = X ++ ':' :: "inline".data := rfl
  have hsplit : splitOnChar ':' (X ++ ":inline".data) = X :: ["inline".data] := by
    rw [hX, splitOnChar_append X ("inline".data) h1]
    rfl
  rw [hsplit]
  dsimp only
  rw [if_pos rfl]
  simp only [rewriteLinkNodeHtml, dataAttr, List.append_assoc]
  rfl

theorem RenderLink_goto {st : CState} {ch : List Node} {ident : List Char}
    (h1 : ':' ∉ ident) (h2 : '%' ∉ ident) :
    RenderLink st (('\x7b' :: '@' :: ident) ++ ['\x7d']) ch =
      .ok (st, Node.mk .html_inline
        ("<a href=\"#\" data-goto-section=\"".data ++ (ident ++ ("\">".data ++
          (getLinkText ch ++ "</a>".data)))) [] []) := by
  have hpm : '%' ∉ ('@' :: ident) := by
    intro hm
    rcases List.mem_cons.mp hm with hEq | hm'
    · exact absurd hEq (by decide)
    · exact h2 hm'
  have hcol : ':' ∉ ('@' :: ident) := by
    intro hm
    rcases List.mem_cons.mp hm with hEq | hm'
    · exact absurd hEq (by decide)
    · exact h1 hm'
  unfold RenderLink
  rw [decodeDest_clean (percent_not_mem_token hpm), RenderLinkUrl_token,
    splitOnChar_no_sep ('@' :: ident) hcol]
  dsimp only
  rw [if_neg (by decide)]
  have hdz : ('@' :: ident)[0]? = some '@' := by simp
  rw [hdz]
  simp only [rewriteLinkNodeHtml, dataAttr, List.append_assoc]
  rfl

theorem RenderLink_call {st : CState} {ch : List Node} {ident : List Char}
    (h1 : ':' ∉ ident) (h2 : '%' ∉ ident) :
    RenderLink st (('\x7b' :: '#' :: ident) ++ ['\x7d']) ch =
      .ok (st, Node.mk .html_inline
        ("<a href=\"#\" data-call-function=\"".data ++ (ident ++ ("\">".data ++
          (getLinkText ch ++ "</a>".data)))) [] []) := by
  have hpm : '%' ∉ ('#' :: ident) := by
    intro hm
    rcases List.mem_cons.mp hm with hEq | hm'
    · exact absurd hEq (by decide)
    · exact h2 hm'
  have hcol : ':' ∉ ('#' :: ident) := by
    intro hm
    rcases List.mem_cons.mp hm with hEq | hm'
    · exact absurd hEq (by decide)
    · exact h1 hm'
  unfold RenderLink
  rw [decodeDest_clean (percent_not_mem_token hpm), RenderLinkUrl_token,
    splitOnChar_no_sep ('#' :: ident) hcol]
  dsimp only
  rw [if_neg (by decide)]
  have hdz : ('#' :: ident)[0]? = some '#' := by simp
  rw [hdz]
  simp only [rewriteLinkNodeHtml, dataAttr, List.append_assoc]
  rfl

theorem RenderLink_var {st : CState} {ch : List Node} {ident : List Char}
    (h1 : ':' ∉ ident) (h2 : '%' ∉ ident) :
    RenderLink st (('\x7b' :: '$' :: ident) ++ ['\x7d']) ch =
      .error .invalidLinkTarget := by
  have hpm : '%' ∉ ('$' :: ident) := by
    intro hm
    rcases List.mem_cons.mp hm with hEq | hm'
    · exact absurd hEq (by decide)
    · exact h2 hm'
  have hcol : ':' ∉ ('$' :: ident) := by
    intro hm
    rcases List.mem_cons.mp hm with hEq | hm'
    · exact absurd hEq (by decide)
    · exact h1 hm'
  unfold RenderLink
  rw [decodeDest_clean (percent_not_mem_token hpm), RenderLinkUrl_token,
    splitOnChar_no_sep ('$' :: ident) hcol]
  dsimp only
  rw [if_neg (by decide)]
  have hdz : ('$' :: ident)[0]? = some '$' := by simp
  rw [hdz]
  rfl

theorem RenderLink_unrecognized {st : CState} {ch : List Node} {c : Char} {ident : List Char}
    (hat : c ≠ '@') (hhash : c ≠ '#') (hdol : c ≠ '$') (hcolc : c ≠ ':') (hpc : c ≠ '%')
    (h1 : ':' ∉ ident) (h2 : '%' ∉ ident) :
    RenderLink st (('\x7b' :: c :: ident) ++ ['\x7d']) ch = .error .unrecognized := by
  have hpm : '%' ∉ (c :: ident) := by
    intro hm
    rcases List.mem_cons.mp hm with hEq | hm'
    · exact hpc hEq.symm
    · exact h2 hm'
  have hcol : ':' ∉ (c :: ident) := by
    intro hm
    rcases List.mem_cons.mp hm with hEq | hm'
    · exact hcolc hEq.symm
    · exact h1 hm'
  unfold RenderLink
  rw [decodeDest_clean (percent_not_mem_token hpm), RenderLinkUrl_token,
    splitOnChar_no_sep (c :: ident) hcol]
  dsimp only
  rw [if_neg (by decide)]
  have hdz : (c :: ident)[0]? = some c := by simp
  rw [hdz]
  split
  · rename_i heq
    injection heq with hc
    exact absurd hc hat
  · rename_i heq
    injection heq with hc
    exact absurd hc hhash
  · rename_i heq
    injection heq with hc
    exact absurd hc hdol
  · rfl

theorem RenderImage_plain {alt url : List Char}
    (h1 : '%' ∉ url) (h2 : url[0]? ≠ some '\x7b') :
    RenderImage alt url = .ok (Node.mk .html_inline
      ("<img src=\"".data ++ (url ++ ("\" alt=\"".data ++ (alt ++
        ("\" title=\"".data ++ (alt ++ "\">".data)))))) [] []) := by
  unfold RenderImage RenderImageUrl
  rw [decodeDest_clean h1, if_pos h2]
  simp only [List.append_assoc]

theorem RenderImage_unterminated {alt rest : List Char}
    (h1 : '%' ∉ '\x7b' :: rest) (h2 : ('\x7b' :: rest).getLast? ≠ some '\x7d') :
    RenderImage alt ('\x7b' :: rest) = .error .unterminated := by
  unfold RenderImage RenderImageUrl
  rw [decodeDest_clean h1]
  rw [if_neg (by simp), if_pos h2]

theorem RenderImage_section_err {alt ident : List Char} (h2 : '%' ∉ ident) :
    RenderImage alt (('\x7b' :: '@' :: ident) ++ ['\x7d']) = .error .sectionAsImageSource := by
  have hpm : '%' ∉ ('@' :: ident) := by
    intro hm
    rcases List.mem_cons.mp hm with hEq | hm'
    · exact absurd hEq (by decide)
    · exact h2 hm'
  have h0 : ((('\x7b' :: '@' :: ident) ++ ['\x7d']))[0]? = some '\x7b' := by
    rw [List.cons_append]
    simp
  have hlast : (('\x7b' :: '@' :: ident) ++ ['\x7d']).getLast? = some '\x7d' :=
    List.getLast?_concat _
  have h1 : ((('\x7b' :: '@' :: ident) ++ ['\x7d']))[1]? = some '@' := by
    rw [List.cons_append, List.cons_append]
    simp
  unfold RenderImage RenderImageUrl
  rw [decodeDest_clean (percent_not_mem_token hpm), h0, hlast, h1]
  rw [if_neg (by simp), if_neg (by simp)]
  rfl

theorem RenderImage_sigil_ok {alt ident : List Char} {sig : Char}
    (hsig : sig = '#' ∨ sig = '$') (h2 : '%' ∉ ident) :
    RenderImage alt (('\x7b' :: sig :: ident) ++ ['\x7d']) =
      .ok (Node.mk .html_inline
        ("<img data-image-source-macro=\"".data ++ ((sig :: ident) ++
          ("\" src=\"#\" alt=\"".data ++ (alt ++
            ("\" title=\"".data ++ (alt ++ "\">".data)))))) [] []) := by
  have hpm : '%' ∉ (sig :: ident) := by
    intro hm
    rcases List.mem_cons.mp hm with hEq | hm'
    · rcases hsig with rfl | rfl <;> exact absurd hEq (by decide)
    · exact h2 hm'
  have h0 : ((('\x7b' :: sig :: ident) ++ ['\x7d']))[0]? = some '\x7b' := by
    rw [List.cons_append]
    simp
  have hlast : (('\x7b' :: sig :: ident) ++ ['\x7d']).getLast? = some '\x7d' :=
    List.getLast?_concat _
  have h1 : ((('\x7b' :: sig :: ident) ++ ['\x7d']))[1]? = some sig := by
    rw [List.cons_append, List.cons_append]
    simp
  have hti : tokenInner (('\x7b' :: sig :: ident) ++ ['\x7d']) = sig :: ident := by
    rw [List.cons_append]
    exact tokenInner_norm '\x7b' (sig :: ident)
  unfold RenderImage RenderImageUrl
  rw [decodeDest_clean (percent_not_mem_token hpm), h0, hlast, h1, hti]
  rw [if_neg (by simp), if_neg (by simp)]
  rcases hsig with rfl | rfl
  · simp only [List.append_assoc]
  · simp only [List.append_assoc]

theorem RenderImage_unknown {alt ident : List Char} {c : Char}
    (hat : c ≠ '@') (hhash : c ≠ '#') (hdol : c ≠ '$') (hpc : c ≠ '%')
    (h2 : '%' ∉ ident) :
    RenderImage alt (('\x7b' :: c :: ident) ++ ['\x7d']) = .error .unknownKind := by
  have hpm : '%' ∉ (c :: ident) := by
    intro hm
    rcases List.mem_cons.mp hm with hEq | hm'
    · exact hpc hEq.symm
    · exact h2 hm'
  have h0 : ((('\x7b' :: c :: ident) ++ ['\x7d']))[0]? = some '\x7b' := by
    rw [List.cons_append]
    simp
  have hlast : (('\x7b' :: c :: ident) ++ ['\x7d']).getLast? = some '\x7d' :=
    List.getLast?_concat _
  have h1 : ((('\x7b' :: c :: ident) ++ ['\x7d']))[1]? = some c := by
    rw [List.cons_append, List.cons_append]
    simp
  unfold RenderImage RenderImageUrl
  rw [decodeDest_clean (percent_not_mem_token hpm), h0, hlast, h1]
  rw [if_neg (by simp), if_neg (by simp)]
  split
  · rename_i heq
    injection heq with hc
    exact absurd hc hat
  · rename_i heq
    injection heq with hc
    exact absurd hc hhash
  · rename_i heq
    injection heq with hc
    exact absurd hc hdol
  · rfl

theorem findTokenStart_clean_none :
    ∀ (a : List Char), '\x7b' ∉ a → '\\' ∉ a → ∀ (x : List Char),
      findTokenStart x = none → findTokenStart (a ++ x) = none := by
  intro a
  induction a with
  | nil =>
    intro _ _ x hx
    rw [List.nil_append]
    exact hx
  | cons c a' ih =>
    intro hb hs x hx
    have h1 : c ≠ '\\' := fun hc => hs (by rw [hc]; exact List.mem_cons_self _ _)
    have h2 : c ≠ '\x7b' := fun hc => hb (by rw [hc]; exact List.mem_cons_self _ _)
    rw [List.cons_append, findTokenStart_cons_other h1 h2,
      ih (fun hm => hb (List.mem_cons_of_mem _ hm)) (fun hm => hs (List.mem_cons_of_mem _ hm))
        x hx]
    rfl

/-- C1: for every textual (text/code/code_block) leaf whose literal holds a
token span starting at an unescaped `{`, the scanner returns exactly the
substring extending to the matching `}` as determined by the brace-depth
counter: the returned token is a prefix of the remaining input, it ends
with `}`, its brace surplus returns the depth (which starts at 1 for the
opening brace) to zero, and no shorter prefix does so; when the depth
never returns to zero before the literal ends, the visit fails with
UnterminatedMacro. -/
theorem claim_c1_scan_matches_depth :
    (∀ cs m : List Char, scanDepth cs 1 = some m →
      (∃ r, cs = m ++ r) ∧ m.getLast? = some '\x7d' ∧ 1 + braceDelta m = 0 ∧
        ∀ p, p <+: m → p ≠ m → 0 < 1 + braceDelta p)
    ∧ (∀ cs : List Char, scanDepth cs 1 = none →
        ∀ p, p <+: cs → 0 < 1 + braceDelta p)
    ∧ (∀ (t : NType) (pt : Option NType) (hp : Bool) (sc : Nat) (rest : List Char),
        scanDepth rest 1 = none →
        renderLeaf t pt hp sc ('\x7b' :: rest) = .failure .unterminated) := by
  refine ⟨?_, ?_, ?_⟩
  · intro cs m h
    have hs := scanDepth_some_spec cs 1 m (le_refl 1) h
    simpa using hs
  · intro cs h p hp
    have hs := scanDepth_none_spec cs 1 (le_refl 1) h p hp
    simpa using hs
  · intro t pt hp sc rest h
    have hscan : scanToken ('\x7b' :: rest) = none := by
      rw [scanToken_cons_open, h]
      rfl
    rw [renderLeaf_eq,
      RenderText_unterminated (findTokenStart_cons_open rest) hscan]

theorem claim_c1_scan_matches_depth_witness :
    ((∃ r, "@Foo\x7d x".data = "@Foo\x7d".data ++ r) ∧
      ("@Foo\x7d".data).getLast? = some '\x7d' ∧ 1 + braceDelta "@Foo\x7d".data = 0 ∧
      ∀ p, p <+: "@Foo\x7d".data → p ≠ "@Foo\x7d".data → 0 < 1 + braceDelta p)
    ∧ renderLeaf .text (some .paragraph) false 0 ('\x7b' :: "@Foo".data) =
        .failure .unterminated :=
  ⟨claim_c1_scan_matches_depth.1 "@Foo\x7d x".data "@Foo\x7d".data (by decide),
   claim_c1_scan_matches_depth.2.2 .text (some .paragraph) false 0 "@Foo".data (by decide)⟩

/-- C2 counterexample: the inner depth loop does not honour backslash
escapes.  In the literal `{@a\}b}` the escaped `\}` terminates the scan
(the returned token is `{@a\}`), and in `{@a\{b}` the escaped `\{`
increments the depth so the scan fails — contradicting the claim that an
escaped brace affects neither brace depth nor token boundaries. -/
theorem claim_c2_counterexample :
    scanToken "\x7b@a\\\x7db\x7d".data = some "\x7b@a\\\x7d".data ∧
    scanToken "\x7b@a\\\x7bb\x7d".data = none := by
  exact ⟨rfl, rfl⟩

/-- C2 (amended): during the outer scan a backslash escapes the
immediately following character — `\{` never opens a token scan (the
token start found in the literal is the one found after the escaped
pair), so a literal whose only `{` is escaped is scanned to completion
with no token extracted, and once scanning of the node completes every
backslash is stripped from its literal, so no escaped character remains
backslash-prefixed.  (However, inside an already-open token span the
depth loop does not honour escapes; see the counterexample.) -/
theorem claim_c2_escape_handling :
    (∀ (c : Char) (rest : List Char),
      (findTokenStart ('\\' :: c :: rest)).map (fun p => p.2) =
        (findTokenStart rest).map (fun p => p.2))
    ∧ (∀ l : List Char, '\\' ∉ stripBackslashes l)
    ∧ (∀ (t : NType) (pt : Option NType) (hp : Bool) (sc : Nat) (a b : List Char),
        '\x7b' ∉ a → '\\' ∉ a → '\x7b' ∉ b →
        renderLeaf t pt hp sc (a ++ '\\' :: '\x7b' :: b) =
          .nodes [Node.mk t (a ++ '\x7b' :: stripBackslashes b) [] []]) := by
  refine ⟨?_, stripBackslashes_no_backslash, ?_⟩
  · intro c rest
    rw [findTokenStart_cons_escape]
    cases h : findTokenStart rest with
    | none => rfl
    | some p => rfl
  · intro t pt hp sc a b ha1 ha2 hb
    have hX : findTokenStart ('\\' :: '\x7b' :: b) = none := by
      rw [findTokenStart_cons_escape, findTokenStart_none b hb]
      rfl
    have hfind := findTokenStart_clean_none a ha1 ha2 _ hX
    rw [renderLeaf_of_none hfind]
    have hstrip : stripBackslashes (a ++ '\\' :: '\x7b' :: b) =
        a ++ '\x7b' :: stripBackslashes b := by
      unfold stripBackslashes
      rw [List.filter_append]
      have h1 : List.filter (fun c => decide (c ≠ '\\')) a = a := stripBackslashes_clean ha2
      rw [h1]
      rfl
    rw [hstrip]

theorem claim_c2_escape_handling_witness :
    renderLeaf .text (some .paragraph) false 0 ("x ".data ++ '\\' :: '\x7b' :: "y\\z".data) =
      .nodes [Node.mk .text ("x ".data ++ '\x7b' :: stripBackslashes "y\\z".data) [] []] :=
  claim_c2_escape_handling.2.2 .text (some .paragraph) false 0 "x ".data "y\\z".data
    (by decide) (by decide) (by decide)

/-- C3 counterexample: a section declaration preceded by text on the same
leaf — the paragraph `abc {{Foo}}` — compiles successfully: the section
check only tests `node.prev` and `node.parent.type`, so the whole
paragraph (including `abc `) is silently replaced by the section markup,
instead of the file failing with InvalidSectionPlacement as the claim
states. -/
theorem claim_c3_counterexample :
    RenderFile 0 (Node.mk .document [] []
      [Node.mk .paragraph [] [] [Node.mk .text "abc \x7b\x7bFoo\x7d\x7d".data [] []]]) =
      (0, .ok "<div id=\"Foo\" class=\"section\" hidden=\"true\"></div>".data) := rfl

/-- C3 (amended): a section-begin token found in a textual leaf fails with
InvalidSectionPlacement exactly when the leaf has a preceding sibling,
or its immediate parent is not a paragraph, or it has no parent;
preceding text on the same leaf does not fail — the declaration still
replaces the whole paragraph (that text is silently discarded), and
nothing above the immediate parent is inspected. -/
theorem claim_c3_section_placement :
    ∀ (t : NType) (sc : Nat) (a id b : List Char),
      '\x7b' ∉ a → '\\' ∉ a → '\x7b' ∉ id → '\x7d' ∉ id →
      (RenderText t (some .paragraph) false sc
          (a ++ '\x7b' :: '\x7b' :: (id ++ '\x7d' :: '\x7d' :: b)) =
        .sectionDecl (sectionDivMarkup sc id))
      ∧ (RenderText t (some .paragraph) true sc
          (a ++ '\x7b' :: '\x7b' :: (id ++ '\x7d' :: '\x7d' :: b)) =
        .failure .invalidSectionPlacement)
      ∧ (∀ q : NType, q ≠ .paragraph →
          RenderText t (some q) false sc
            (a ++ '\x7b' :: '\x7b' :: (id ++ '\x7d' :: '\x7d' :: b)) =
          .failure .invalidSectionPlacement)
      ∧ (RenderText t none false sc
          (a ++ '\x7b' :: '\x7b' :: (id ++ '\x7d' :: '\x7d' :: b)) =
        .failure .invalidSectionPlacement) := by
  intro t sc a id b ha1 ha2 hi1 hi2
  refine ⟨?_, ?_, ?_, ?_⟩
  · rw [RenderText_section ha1 ha2 hi1 hi2]
    rfl
  · rw [RenderText_section ha1 ha2 hi1 hi2]
    rfl
  · intro q hq
    rw [RenderText_section ha1 ha2 hi1 hi2]
    dsimp only
    rw [if_neg (by simp), if_neg hq]
  · rw [RenderText_section ha1 ha2 hi1 hi2]

theorem claim_c3_section_placement_witness :
    (RenderText .text (some .paragraph) false 0
        ("abc ".data ++ '\x7b' :: '\x7b' :: ("Foo".data ++ '\x7d' :: '\x7d' :: [])) =
      .sectionDecl (sectionDivMarkup 0 "Foo".data))
    ∧ (RenderText .text (some .paragraph) true 0
        ("abc ".data ++ '\x7b' :: '\x7b' :: ("Foo".data ++ '\x7d' :: '\x7d' :: [])) =
      .failure .invalidSectionPlacement)
    ∧ (RenderText .text (some .block_quote) false 0
        ("abc ".data ++ '\x7b' :: '\x7b' :: ("Foo".data ++ '\x7d' :: '\x7d' :: [])) =
      .failure .invalidSectionPlacement)
    ∧ (RenderText .text none false 0
        ("abc ".data ++ '\x7b' :: '\x7b' :: ("Foo".data ++ '\x7d' :: '\x7d' :: [])) =
      .failure .invalidSectionPlacement) := by
  have h := claim_c3_section_placement .text 0 "abc ".data "Foo".data []
    (by decide) (by decide) (by decide) (by decide)
  exact ⟨h.1, h.2.1, h.2.2.1 .block_quote (by decide), h.2.2.2⟩

/-- C4 counterexample: between two consecutive section declarations the
emitted markup is `</div>` followed by a NEWLINE and then the opening
`<div id="B" ...>` (Compiler.ts line 743 inserts `"</div>\n"`), so the
exact string `</div><div id="B" class="section" hidden="true">` claimed
by the spec does not occur in the rendered document. -/
theorem claim_c4_counterexample :
    RenderFile 0 exampleDocTwoSections =
      (0, .ok ("<div id=\"A\" class=\"section\" hidden=\"true\"><p>hello</p>\n</div>\n<div id=\"B\" class=\"section\" hidden=\"true\"><p>world</p>\n</div>").data)
    ∧ ¬ ("</div><div id=\"B\" class=\"section\" hidden=\"true\">".data <:+:
        ("<div id=\"A\" class=\"section\" hidden=\"true\"><p>hello</p>\n</div>\n<div id=\"B\" class=\"section\" hidden=\"true\"><p>world</p>\n</div>").data) := by
  constructor
  · rfl
  · decide

/-- C4 (amended): a valid section declaration replaces its paragraph with
markup consisting of a closing `</div>` plus a newline (the closing part
omitted exactly when the per-file section counter — reset at the start
of each file — is zero) followed by
`<div id="<id>" class="section" hidden="true">`; two consecutive
declarations `{{A}}` and `{{B}}` produce
`</div>` + newline + `<div id="B" class="section" hidden="true">`
between them, and after the full traversal exactly one trailing
`</div>` is appended (as the last child of the root), so the document
ends with exactly one `</div>`.  Compiling the same two-section file
twice in one batch shows the counter reset: both outputs are identical,
each starting afresh with no leading `</div>`. -/
theorem claim_c4_section_markup :
    (∀ (sc : Nat) (id : List Char), sectionDivMarkup (sc + 1) id =
        "</div>\n".data ++ ("<div id=\"".data ++ (id ++ "\" class=\"section\" hidden=\"true\">".data)))
    ∧ (∀ id : List Char, sectionDivMarkup 0 id =
        "<div id=\"".data ++ (id ++ "\" class=\"section\" hidden=\"true\">".data))
    ∧ ("</div>\n<div id=\"B\" class=\"section\" hidden=\"true\">".data <:+:
        ("<div id=\"A\" class=\"section\" hidden=\"true\"><p>hello</p>\n</div>\n<div id=\"B\" class=\"section\" hidden=\"true\"><p>world</p>\n</div>").data)
    ∧ ("</div>".data <:+
        ("<div id=\"A\" class=\"section\" hidden=\"true\"><p>hello</p>\n</div>\n<div id=\"B\" class=\"section\" hidden=\"true\"><p>world</p>\n</div>").data)
    ∧ (¬ "</div></div>".data <:+
        ("<div id=\"A\" class=\"section\" hidden=\"true\"><p>hello</p>\n</div>\n<div id=\"B\" class=\"section\" hidden=\"true\"><p>world</p>\n</div>").data)
    ∧ ((Compile 0 [exampleDocTwoSections, exampleDocTwoSections]).results =
        [.ok ("<div id=\"A\" class=\"section\" hidden=\"true\"><p>hello</p>\n</div>\n<div id=\"B\" class=\"section\" hidden=\"true\"><p>world</p>\n</div>").data,
         .ok ("<div id=\"A\" class=\"section\" hidden=\"true\"><p>hello</p>\n</div>\n<div id=\"B\" class=\"section\" hidden=\"true\"><p>world</p>\n</div>").data]) := by
  refine ⟨?_, ?_, by decide, by decide, by decide, rfl⟩
  · intro sc id
    unfold sectionDivMarkup
    rw [if_pos (Nat.succ_pos sc)]
    simp only [List.append_assoc]
  · intro id
    unfold sectionDivMarkup
    rw [if_neg (by omega)]
    rw [List.nil_append]
    simp only [List.append_assoc]

theorem insertHtmlLiteral_text (v : List Char) :
    insertHtmlLiteral .text (dataAttr "expand-macro".data v) =
      "<span data-expand-macro=\"".data ++ (v ++ "\"></span>".data) := by
  show "<span".data ++ (" data-".data ++ "expand-macro".data ++ "=\"".data ++ v ++
      "\"".data) ++ "></span>".data = _
  simp only [List.append_assoc]
  rfl

theorem insertHtmlLiteral_code (v : List Char) :
    insertHtmlLiteral .code (dataAttr "expand-macro".data v) =
      "<code><span data-expand-macro=\"".data ++ (v ++ "\"></span></code>".data) := by
  show "<code><span".data ++ (" data-".data ++ "expand-macro".data ++ "=\"".data ++ v ++
      "\"".data) ++ "></span></code>".data = _
  simp only [List.append_assoc]
  rfl

theorem insertHtmlLiteral_code_block (v : List Char) :
    insertHtmlLiteral .code_block (dataAttr "expand-macro".data v) =
      "<pre><code><span data-expand-macro=\"".data ++
        (v ++ "\"></span></code></pre>".data) := by
  show "<pre><code><span".data ++ (" data-".data ++ "expand-macro".data ++ "=\"".data ++ v ++
      "\"".data) ++ "></span></code></pre>".data = _
  simp only [List.append_assoc]
  rfl

theorem renderLeaf_sigil_general (t : NType) (pt : Option NType) (hp : Bool) (sc : Nat)
    {a ident b : List Char} {sig : Char}
    (ha1 : '\x7b' ∉ a) (ha2 : '\\' ∉ a) (hsig : sig = '@' ∨ sig = '#' ∨ sig = '$')
    (hi1 : '\x7b' ∉ ident) (hi2 : '\x7d' ∉ ident) (hb1 : '\x7b' ∉ b) (hb2 : '\\' ∉ b) :
    renderLeaf t pt hp sc (a ++ '\x7b' :: sig :: (ident ++ '\x7d' :: b)) =
      .nodes ((if a = [] then [] else [Node.mk t a [] []]) ++
        Node.mk .html_inline
          (insertHtmlLiteral t (dataAttr "expand-macro".data (sig :: ident))) [] [] ::
        (if b = [] then [] else [Node.mk t b [] []])) := by
  have hv := @RenderText_sigil t pt hp sc a ident b sig ha1 ha2 hsig hi1 hi2
  rw [renderLeaf_eq, hv]
  by_cases hb0 : b = []
  · subst hb0
    dsimp only
    rw [stripBackslashes_clean ha2]
    rfl
  · dsimp only
    rw [if_neg hb0, if_neg hb0]
    rw [renderLeaf_of_none (findTokenStart_none b hb1)]
    dsimp only
    rw [stripBackslashes_clean ha2, stripBackslashes_clean hb2]

/-- C5: rewriting a non-section token (`@`, `#` or `$` sigil) in a
text/code/code_block leaf splices the tree: the leaf keeps only the
content before the token (and is dropped when that is empty), a new
inline-html sibling carries `data-expand-macro` whose value is the token
with braces stripped and sigil retained, wrapped as
`<code><span/></code>` under a code leaf,
`<pre><code><span/></code></pre>` under a code_block leaf and a bare
`<span/>` otherwise; the trailing content is re-inserted as a new
sibling leaf of the original kind.  The last conjunct shows a single
visit rewrites exactly one token: whatever trails the token (further
tokens included) is left verbatim as the `post` remainder for the
re-inserted leaf, where the traversal resumes. -/
theorem claim_c5_splice :
    ∀ (pt : Option NType) (hp : Bool) (sc : Nat) (a ident b : List Char) (sig : Char),
      '\x7b' ∉ a → '\\' ∉ a → (sig = '@' ∨ sig = '#' ∨ sig = '$') →
      '\x7b' ∉ ident → '\x7d' ∉ ident → '\x7b' ∉ b → '\\' ∉ b →
      (renderLeaf .text pt hp sc (a ++ '\x7b' :: sig :: (ident ++ '\x7d' :: b)) =
        .nodes ((if a = [] then [] else [Node.mk .text a [] []]) ++
          Node.mk .html_inline
            ("<span data-expand-macro=\"".data ++ (sig :: ident ++ "\"></span>".data)) [] [] ::
          (if b = [] then [] else [Node.mk .text b [] []])))
      ∧ (renderLeaf .code pt hp sc (a ++ '\x7b' :: sig :: (ident ++ '\x7d' :: b)) =
        .nodes ((if a = [] then [] else [Node.mk .code a [] []]) ++
          Node.mk .html_inline
            ("<code><span data-expand-macro=\"".data ++
              (sig :: ident ++ "\"></span></code>".data)) [] [] ::
          (if b = [] then [] else [Node.mk .code b [] []])))
      ∧ (renderLeaf .code_block pt hp sc (a ++ '\x7b' :: sig :: (ident ++ '\x7d' :: b)) =
        .nodes ((if a = [] then [] else [Node.mk .code_block a [] []]) ++
          Node.mk .html_inline
            ("<pre><code><span data-expand-macro=\"".data ++
              (sig :: ident ++ "\"></span></code></pre>".data)) [] [] ::
          (if b = [] then [] else [Node.mk .code_block b [] []])))
      ∧ (∀ b' : List Char,
          RenderText .text pt hp sc ('\x7b' :: sig :: (ident ++ '\x7d' :: b')) =
            .spliced []
              ("<span data-expand-macro=\"".data ++ (sig :: ident ++ "\"></span>".data)) b') := by
  intro pt hp sc a ident b sig ha1 ha2 hsig hi1 hi2 hb1 hb2
  refine ⟨?_, ?_, ?_, ?_⟩
  · have h := renderLeaf_sigil_general .text pt hp sc ha1 ha2 hsig hi1 hi2 hb1 hb2
    rw [insertHtmlLiteral_text] at h
    exact h
  · have h := renderLeaf_sigil_general .code pt hp sc ha1 ha2 hsig hi1 hi2 hb1 hb2
    rw [insertHtmlLiteral_code] at h
    exact h
  · have h := renderLeaf_sigil_general .code_block pt hp sc ha1 ha2 hsig hi1 hi2 hb1 hb2
    rw [insertHtmlLiteral_code_block] at h
    exact h
  · intro b'
    have h := @RenderText_sigil .text pt hp sc [] ident b' sig
      (by simp) (by simp) hsig hi1 hi2
    rw [List.nil_append, insertHtmlLiteral_text] at h
    exact h

theorem claim_c5_splice_witness :
    renderLeaf .text (some .paragraph) false 0
        ("a ".data ++ '\x7b' :: '$' :: ("x".data ++ '\x7d' :: " b".data)) =
      .nodes ((if "a ".data = ([] : List Char) then [] else [Node.mk .text "a ".data [] []]) ++
        Node.mk .html_inline
          ("<span data-expand-macro=\"".data ++ ('$' :: "x".data ++ "\"></span>".data)) [] [] ::
        (if " b".data = ([] : List Char) then [] else [Node.mk .text " b".data [] []])) :=
  (claim_c5_splice (some .paragraph) false 0 "a ".data "x".data " b".data '$'
    (by decide) (by decide) (by decide) (by decide) (by decide) (by decide) (by decide)).1

/-- C6: on exiting a link node whose destination is a brace-delimited
token with no `:inline` modifier, the rewrite dispatches on the leading
sigil: `@` yields `data-goto-section` with the sigil stripped and no
`id` attribute (the emitted anchor is
`<a href="#" data-goto-section="...">`), `#` yields `data-call-function`
likewise, `$` fails with InvalidLinkMacro, any other leading character
fails with UnrecognizedMacro; a destination not beginning with `{` is
left untouched, and one beginning with `{` but not ending in `}` fails
with UnterminatedMacro. -/
theorem claim_c6_link_dispatch :
    (∀ (st : CState) (ch : List Node) (ident : List Char), ':' ∉ ident → '%' ∉ ident →
      RenderLink st (('\x7b' :: '@' :: ident) ++ ['\x7d']) ch =
        .ok (st, Node.mk .html_inline
          ("<a href=\"#\" data-goto-section=\"".data ++ (ident ++ ("\">".data ++
            (getLinkText ch ++ "</a>".data)))) [] []))
    ∧ (∀ (st : CState) (ch : List Node) (ident : List Char), ':' ∉ ident → '%' ∉ ident →
      RenderLink st (('\x7b' :: '#' :: ident) ++ ['\x7d']) ch =
        .ok (st, Node.mk .html_inline
          ("<a href=\"#\" data-call-function=\"".data ++ (ident ++ ("\">".data ++
            (getLinkText ch ++ "</a>".data)))) [] []))
    ∧ (∀ (st : CState) (ch : List Node) (ident : List Char), ':' ∉ ident → '%' ∉ ident →
      RenderLink st (('\x7b' :: '$' :: ident) ++ ['\x7d']) ch = .error .invalidLinkTarget)
    ∧ (∀ (st : CState) (ch : List Node) (c : Char) (ident : List Char),
        c ≠ '@' → c ≠ '#' → c ≠ '$' → c ≠ ':' → c ≠ '%' → ':' ∉ ident → '%' ∉ ident →
        RenderLink st (('\x7b' :: c :: ident) ++ ['\x7d']) ch = .error .unrecognized)
    ∧ (∀ (st : CState) (ch : List Node) (dest : List Char),
        '%' ∉ dest → dest[0]? ≠ some '\x7b' →
        RenderLink st dest ch = .ok (st, Node.mk .link [] dest ch))
    ∧ (∀ (st : CState) (ch : List Node) (rest : List Char),
        '%' ∉ '\x7b' :: rest → ('\x7b' :: rest).getLast? ≠ some '\x7d' →
        RenderLink st ('\x7b' :: rest) ch = .error .unterminated) :=
  ⟨fun _ _ _ h1 h2 => RenderLink_goto h1 h2,
   fun _ _ _ h1 h2 => RenderLink_call h1 h2,
   fun _ _ _ h1 h2 => RenderLink_var h1 h2,
   fun _ _ _ _ hat hhash hdol hcolc hpc h1 h2 =>
     RenderLink_unrecognized hat hhash hdol hcolc hpc h1 h2,
   fun _ _ _ h1 h2 => RenderLink_nonmacro h1 h2,
   fun _ _ _ h1 h2 => RenderLink_unterminated h1 h2⟩

theorem claim_c6_link_dispatch_witness :
    (RenderLink ⟨0, 0⟩ (('\x7b' :: '@' :: "Foo".data) ++ ['\x7d'])
        [Node.mk .text "go".data [] []] =
      .ok (⟨0, 0⟩, Node.mk .html_inline
        ("<a href=\"#\" data-goto-section=\"".data ++ ("Foo".data ++ ("\">".data ++
          (getLinkText [Node.mk .text "go".data [] []] ++ "</a>".data)))) [] []))
    ∧ (RenderLink ⟨0, 0⟩ (('\x7b' :: '$' :: "v".data) ++ ['\x7d'])
        [Node.mk .text "go".data [] []] = .error .invalidLinkTarget)
    ∧ (RenderLink ⟨0, 0⟩ (('\x7b' :: '!' :: "v".data) ++ ['\x7d'])
        [Node.mk .text "go".data [] []] = .error .unrecognized)
    ∧ (RenderLink ⟨0, 0⟩ "http://x".data [Node.mk .text "go".data [] []] =
        .ok (⟨0, 0⟩, Node.mk .link [] "http://x".data [Node.mk .text "go".data [] []]))
    ∧ (RenderLink ⟨0, 0⟩ ('\x7b' :: "@Foo".data) [Node.mk .text "go".data [] []] =
        .error .unterminated) :=
  ⟨claim_c6_link_dispatch.1 ⟨0, 0⟩ [Node.mk .text "go".data [] []] "Foo".data
      (by decide) (by decide),
   claim_c6_link_dispatch.2.2.1 ⟨0, 0⟩ [Node.mk .text "go".data [] []] "v".data
      (by decide) (by decide),
   claim_c6_link_dispatch.2.2.2.1 ⟨0, 0⟩ [Node.mk .text "go".data [] []] '!' "v".data
      (by decide) (by decide) (by decide) (by decide) (by decide) (by decide) (by decide),
   claim_c6_link_dispatch.2.2.2.2.1 ⟨0, 0⟩ [Node.mk .text "go".data [] []] "http://x".data
      (by decide) (by decide),
   claim_c6_link_dispatch.2.2.2.2.2 ⟨0, 0⟩ [Node.mk .text "go".data [] []] "@Foo".data
      (by decide) (by decide)⟩

/-- C7 counterexample: a link with destination `{#bar:inline}` compiles to
an anchor whose `data-replace-with` value is `#bar` — the whole
identifier with its sigil (`RewriteLinkNode` receives `tokens[0]`
unchanged, Compiler.ts line 651) — not `bar` as the claim states; the
two literals differ. -/
theorem claim_c7_counterexample :
    RenderLink ⟨0, 5⟩ "\x7b#bar:inline\x7d".data [Node.mk .text "go".data [] []] =
      .ok (⟨0, 6⟩, Node.mk .html_inline
        "<a href=\"#\" id=\"_inline-5\" data-replace-with=\"#bar\">go</a>".data [] [])
    ∧ ("<a href=\"#\" id=\"_inline-5\" data-replace-with=\"#bar\">go</a>".data ≠
        "<a href=\"#\" id=\"_inline-5\" data-replace-with=\"bar\">go</a>".data) := by
  exact ⟨rfl, by decide⟩

/-- C7 (amended): a link with destination `{X:inline}` compiles to an
anchor with `data-replace-with` equal to `X` — the sigil retained, so
`{#bar:inline}` yields `data-replace-with="#bar"` — and id `_inline-N`
where N is the process-lifetime counter, which is incremented by the
rewrite and never reset between files; compiling two one-link files in
one batch yields ids `_inline-0` and `_inline-1`: strictly increasing,
pairwise distinct. -/
theorem claim_c7_inline_ids :
    (∀ (st : CState) (ch : List Node) (X : List Char), ':' ∉ X → '%' ∉ X →
      RenderLink st (('\x7b' :: (X ++ ":inline".data)) ++ ['\x7d']) ch =
        .ok (⟨st.sectionCount, st.nextInlineID + 1⟩,
          Node.mk .html_inline
            ("<a href=\"#\" id=\"_inline-".data ++ (natChars st.nextInlineID ++
              ("\" data-replace-with=\"".data ++ (X ++ ("\">".data ++
                (getLinkText ch ++ "</a>".data)))))) [] []))
    ∧ ((Compile 0 [exampleDocInline "go", exampleDocInline "more"]).results =
        [.ok "<p><a href=\"#\" id=\"_inline-0\" data-replace-with=\"#f\">go</a></p>\n</div>".data,
         .ok "<p><a href=\"#\" id=\"_inline-1\" data-replace-with=\"#f\">more</a></p>\n</div>".data])
    ∧ ((Compile 0 [exampleDocInline "go", exampleDocInline "more"]).nextInlineID = 2) := by
  refine ⟨fun _ _ _ h1 h2 => RenderLink_inline h1 h2, rfl, rfl⟩

theorem claim_c7_inline_ids_witness :
    RenderLink ⟨0, 5⟩ (('\x7b' :: ("#bar".data ++ ":inline".data)) ++ ['\x7d'])
        [Node.mk .text "go".data [] []] =
      .ok (⟨0, 6⟩, Node.mk .html_inline
        ("<a href=\"#\" id=\"_inline-".data ++ (natChars 5 ++
          ("\" data-replace-with=\"".data ++ ("#bar".data ++ ("\">".data ++
            (getLinkText [Node.mk .text "go".data [] []] ++ "</a>".data)))))) [] []) :=
  claim_c7_inline_ids.1 ⟨0, 5⟩ [Node.mk .text "go".data [] []] "#bar".data
    (by decide) (by decide)

/-- C10: for every link destination of the form `{X:inline}` the
inline-modifier branch is taken before any sigil validation, so the
rewrite succeeds with `data-replace-with="X"` and a fresh `_inline-N` id
for arbitrary colon-free X — including a `$`-sigil identifier as in
`{$var:inline}` and identifiers with no recognized sigil — even though
the same identifiers without the modifier fail with InvalidLinkMacro or
UnrecognizedMacro respectively. -/
theorem claim_c10_inline_before_sigil :
    (∀ (st : CState) (ch : List Node) (X : List Char), ':' ∉ X → '%' ∉ X →
      RenderLink st (('\x7b' :: (X ++ ":inline".data)) ++ ['\x7d']) ch =
        .ok (⟨st.sectionCount, st.nextInlineID + 1⟩,
          Node.mk .html_inline
            ("<a href=\"#\" id=\"_inline-".data ++ (natChars st.nextInlineID ++
              ("\" data-replace-with=\"".data ++ (X ++ ("\">".data ++
                (getLinkText ch ++ "</a>".data)))))) [] []))
    ∧ (∀ (st : CState) (ch : List Node) (ident : List Char), ':' ∉ ident → '%' ∉ ident →
        RenderLink st (('\x7b' :: '$' :: ident) ++ ['\x7d']) ch = .error .invalidLinkTarget)
    ∧ (∀ (st : CState) (ch : List Node) (c : Char) (ident : List Char),
        c ≠ '@' → c ≠ '#' → c ≠ '$' → c ≠ ':' → c ≠ '%' → ':' ∉ ident → '%' ∉ ident →
        RenderLink st (('\x7b' :: c :: ident) ++ ['\x7d']) ch = .error .unrecognized)
    ∧ (RenderLink ⟨0, 0⟩ "\x7b$var:inline\x7d".data [Node.mk .text "x".data [] []] =
        .ok (⟨0, 1⟩, Node.mk .html_inline
          "<a href=\"#\" id=\"_inline-0\" data-replace-with=\"$var\">x</a>".data [] [])) :=
  ⟨fun _ _ _ h1 h2 => RenderLink_inline h1 h2,
   fun _ _ _ h1 h2 => RenderLink_var h1 h2,
   fun _ _ _ _ hat hhash hdol hcolc hpc h1 h2 =>
     RenderLink_unrecognized hat hhash hdol hcolc hpc h1 h2,
   rfl⟩

theorem claim_c10_inline_before_sigil_witness :
    (RenderLink ⟨0, 0⟩ (('\x7b' :: ("$var".data ++ ":inline".data)) ++ ['\x7d'])
        [Node.mk .text "x".data [] []] =
      .ok (⟨0, 1⟩, Node.mk .html_inline
        ("<a href=\"#\" id=\"_inline-".data ++ (natChars 0 ++
          ("\" data-replace-with=\"".data ++ ("$var".data ++ ("\">".data ++
            (getLinkText [Node.mk .text "x".data [] []] ++ "</a>".data)))))) [] []))
    ∧ (RenderLink ⟨0, 0⟩ (('\x7b' :: '$' :: "var".data) ++ ['\x7d'])
        [Node.mk .text "x".data [] []] = .error .invalidLinkTarget)
    ∧ (RenderLink ⟨0, 0⟩ (('\x7b' :: '~' :: "var".data) ++ ['\x7d'])
        [Node.mk .text "x".data [] []] = .error .unrecognized) :=
  ⟨claim_c10_inline_before_sigil.1 ⟨0, 0⟩ [Node.mk .text "x".data [] []] "$var".data
      (by decide) (by decide),
   claim_c10_inline_before_sigil.2.1 ⟨0, 0⟩ [Node.mk .text "x".data [] []] "var".data
      (by decide) (by decide),
   claim_c10_inline_before_sigil.2.2.1 ⟨0, 0⟩ [Node.mk .text "x".data [] []] '~' "var".data
      (by decide) (by decide) (by decide) (by decide) (by decide) (by decide) (by decide)⟩

/-- C8 counterexample: an image with destination `{#bar}` compiles to
`<img data-image-source-macro="#bar" ...>` — the de-delimited identifier
retains its sigil (`url.substring(1, url.length - 1)`, Compiler.ts line
587) — not `data-image-source-macro="bar"` as the claim's example
states; the two literals differ. -/
theorem claim_c8_counterexample :
    RenderImage "pic".data "\x7b#bar\x7d".data =
      .ok (Node.mk .html_inline
        "<img data-image-source-macro=\"#bar\" src=\"#\" alt=\"pic\" title=\"pic\">".data [] [])
    ∧ ("<img data-image-source-macro=\"#bar\" src=\"#\" alt=\"pic\" title=\"pic\">".data ≠
        "<img data-image-source-macro=\"bar\" src=\"#\" alt=\"pic\" title=\"pic\">".data) := by
  exact ⟨rfl, by decide⟩

/-- C8 (amended): for every image node, a destination not beginning with
`{` is unconditionally rewritten to a plain `<img>` with the original
src, alt from the removed first text child and title mirroring alt; a
token destination with leading sigil `@` fails with SectionAsImageSource;
sigils `#` and `$` succeed, producing `data-image-source-macro` set to
the de-delimited identifier with the sigil retained (`{#bar}` yields
`data-image-source-macro="#bar"`), placeholder `src="#"` and the same
alt/title; a destination lacking a terminating `}` fails with
UnterminatedMacro and any other sigil fails with UnknownMacro. -/
theorem claim_c8_image_dispatch :
    (∀ (alt url : List Char), '%' ∉ url → url[0]? ≠ some '\x7b' →
      RenderImage alt url = .ok (Node.mk .html_inline
        ("<img src=\"".data ++ (url ++ ("\" alt=\"".data ++ (alt ++
          ("\" title=\"".data ++ (alt ++ "\">".data)))))) [] []))
    ∧ (∀ (alt ident : List Char), '%' ∉ ident →
        RenderImage alt (('\x7b' :: '@' :: ident) ++ ['\x7d']) = .error .sectionAsImageSource)
    ∧ (∀ (alt ident : List Char) (sig : Char), (sig = '#' ∨ sig = '$') → '%' ∉ ident →
        RenderImage alt (('\x7b' :: sig :: ident) ++ ['\x7d']) =
          .ok (Node.mk .html_inline
            ("<img data-image-source-macro=\"".data ++ ((sig :: ident) ++
              ("\" src=\"#\" alt=\"".data ++ (alt ++
                ("\" title=\"".data ++ (alt ++ "\">".data)))))) [] []))
    ∧ (∀ (alt rest : List Char), '%' ∉ '\x7b' :: rest →
        ('\x7b' :: rest).getLast? ≠ some '\x7d' →
        RenderImage alt ('\x7b' :: rest) = .error .unterminated)
    ∧ (∀ (alt ident : List Char) (c : Char),
        c ≠ '@' → c ≠ '#' → c ≠ '$' → c ≠ '%' → '%' ∉ ident →
        RenderImage alt (('\x7b' :: c :: ident) ++ ['\x7d']) = .error .unknownKind) :=
  ⟨fun _ _ h1 h2 => RenderImage_plain h1 h2,
   fun _ _ h2 => RenderImage_section_err h2,
   fun _ _ _ hsig h2 => RenderImage_sigil_ok hsig h2,
   fun _ _ h1 h2 => RenderImage_unterminated h1 h2,
   fun _ _ _ hat hhash hdol hpc h2 => RenderImage_unknown hat hhash hdol hpc h2⟩

theorem claim_c8_image_dispatch_witness :
    (RenderImage "pic".data "img/x.png".data = .ok (Node.mk .html_inline
      ("<img src=\"".data ++ ("img/x.png".data ++ ("\" alt=\"".data ++ ("pic".data ++
        ("\" title=\"".data ++ ("pic".data ++ "\">".data)))))) [] []))
    ∧ (RenderImage "pic".data (('\x7b' :: '@' :: "Foo".data) ++ ['\x7d']) =
        .error .sectionAsImageSource)
    ∧ (RenderImage "pic".data (('\x7b' :: '#' :: "bar".data) ++ ['\x7d']) =
        .ok (Node.mk .html_inline
          ("<img data-image-source-macro=\"".data ++ (('#' :: "bar".data) ++
            ("\" src=\"#\" alt=\"".data ++ ("pic".data ++
              ("\" title=\"".data ++ ("pic".data ++ "\">".data)))))) [] []))
    ∧ (RenderImage "pic".data ('\x7b' :: "#bar".data) = .error .unterminated)
    ∧ (RenderImage "pic".data (('\x7b' :: '!' :: "bar".data) ++ ['\x7d']) =
        .error .unknownKind) :=
  ⟨claim_c8_image_dispatch.1 "pic".data "img/x.png".data (by decide) (by decide),
   claim_c8_image_dispatch.2.1 "pic".data "Foo".data (by decide),
   claim_c8_image_dispatch.2.2.1 "pic".data "bar".data '#' (Or.inl rfl) (by decide),
   claim_c8_image_dispatch.2.2.2.1 "pic".data "#bar".data (by decide) (by decide),
   claim_c8_image_dispatch.2.2.2.2 "pic".data "bar".data '!'
     (by decide) (by decide) (by decide) (by decide) (by decide)⟩

/-- C9: a compilation error (here an unterminated token) aborts only that
file — `RenderFile` returns a failure value — while the batch renders
every remaining file (the result list always has one entry per input
file) and accumulates an error count; a well-formed second file still
compiles after an earlier file failed, and the whole build is declared
failed only after all files have been attempted. -/
theorem claim_c9_batch_continues :
    (∀ (nid : Nat) (files : List Node),
      (Compile nid files).results.length = files.length)
    ∧ ((Compile 0 [exampleDocUnterminated, exampleDocWellFormed]).results =
        [.error .unterminated,
         .ok "<div id=\"Start\" class=\"section\" hidden=\"true\"><p><a href=\"#\" data-goto-section=\"Foo\">go</a></p>\n</div>".data])
    ∧ ((Compile 0 [exampleDocUnterminated, exampleDocWellFormed]).errorCount = 1)
    ∧ (buildSucceeds (Compile 0 [exampleDocUnterminated, exampleDocWellFormed]) = false)
    ∧ (buildSucceeds (Compile 0 [exampleDocWellFormed]) = true) := by
  refine ⟨?_, rfl, rfl, rfl, rfl⟩
  intro nid files
  induction files generalizing nid with
  | nil => rfl
  | cons f fs ih =>
    simp only [Compile, List.length_cons]
    rw [ih]
